import Mathlib

/-!
Shallow embedding of `hw4.py` (Pearson correlation / feature selection,
logistic regression by gradient descent, k-fold cross-validation, 1-D
Gaussian-mixture EM, and a Naive-Bayes classifier over per-feature GMMs).

Numerics are modelled over `ℚ`.  The transcendental primitives that NumPy
supplies (`np.exp`, `np.log`, `np.log2`, `np.sqrt`, `np.pi`) are abstracted
into a record `RealOps` of rational-valued operations; every embedded
function is parametrised by such a record, so all claims proved below hold
for every interpretation of the primitives (hypotheses state the facts of
real arithmetic a particular claim needs, e.g. `sqrt 0 = 0`).

NumPy's global random generator (`np.random`) is abstracted into a record
`Rng`: a state type, `np.random.seed`, and the three draws the source uses
(`np.random.random`, `np.random.choice(n, k, replace=False)`,
`np.random.permutation`).  The state is threaded explicitly, which makes
the seeding discipline of each `fit` checkable.

Division on `ℚ` is total with `x / 0 = 0`; where the source can divide by
zero (NumPy would produce `inf`/`nan`, a non-finite float, not an
exception) the development characterises that outcome by the divisor being
zero (see `pearson_correlation`).
-/

/-- Abstract interpretation of NumPy's transcendental primitives. -/
structure RealOps where
  exp : ℚ → ℚ
  log : ℚ → ℚ
  log2 : ℚ → ℚ
  sqrt : ℚ → ℚ
  pi : ℚ

/-- Abstract interpretation of NumPy's global random generator. -/
structure Rng where
  State : Type
  seed : ℤ → State
  /-- `np.random.random(n)`: draw a vector of `n` floats. -/
  random : State → ℕ → List ℚ × State
  /-- `np.random.choice(n, k, replace=False)`: draw `k` distinct indices below `n`. -/
  choice : State → ℕ → ℕ → List ℕ × State
  /-- `np.random.permutation(n)`: a shuffle of `range n`. -/
  permutation : State → ℕ → List ℕ × State

/-- `np.mean` of a vector: sum divided by length. -/
def npMean (l : List ℚ) : ℚ := l.sum / (l.length : ℚ)

/-- Dot product of two vectors (`a.dot(b)`). -/
def dotQ (a b : List ℚ) : ℚ := (List.zipWith (· * ·) a b).sum

/-- Elementwise subtraction (`a - b`). -/
def vsub (a b : List ℚ) : List ℚ := List.zipWith (· - ·) a b

/-- Column `i` of a row-major matrix (`M[:, i]`, equivalently `M.T[i]`). -/
def colQ (M : List (List ℚ)) (i : ℕ) : List ℚ := M.map (fun r => r.getD i 0)

/-- Number of columns of a row-major matrix (`M.shape[1]`). -/
def ncols (M : List (List ℚ)) : ℕ := (M.headD []).length

/-- `(x - x.mean())`: the centered vector. -/
def centered (x : List ℚ) : List ℚ := x.map (fun v => v - npMean x)

/-- `np.sum((x - mean_x) * (y - mean_y))`: the Pearson numerator. -/
def pearsonNum (x y : List ℚ) : ℚ :=
  (List.zipWith (· * ·) (centered x) (centered y)).sum

/-- `np.sum((x - mean_x)**2)`: raw (not `m`-divided) sum of squares. -/
def sqSum (x : List ℚ) : ℚ := ((centered x).map (fun v => v ^ 2)).sum

/-- The denominator `np.sqrt(np.sum((x-mx)**2) * np.sum((y-my)**2))`. -/
def pearsonDen (O : RealOps) (x y : List ℚ) : ℚ := O.sqrt (sqSum x * sqSum y)

/-- `pearson_correlation(x, y)` from `hw4.py`.  The final division is the
    only possible division by zero; in NumPy a zero denominator yields a
    non-finite float (`inf`/`nan`) rather than an exception, which this
    embedding characterises by `pearsonDen O x y = 0`. -/
def pearson_correlation (O : RealOps) (x y : List ℚ) : ℚ :=
  pearsonNum x y / pearsonDen O x y

/-- Insert one `(name, key)` pair into a list, before the first element
    whose key is not larger.  Combined with `sortDesc` this is a stable
    descending sort: Python's `list.sort(key=..., reverse=True)` is
    guaranteed stable, and a stable sort over a decidable total order on
    keys is extensionally unique, so this models the source's sort. -/
def insertDesc (a : String × ℚ) : List (String × ℚ) → List (String × ℚ)
  | [] => [a]
  | b :: bs => if a.2 ≥ b.2 then a :: b :: bs else b :: insertDesc a bs

/-- Stable descending sort by key (`correlations.sort(key=..., reverse=True)`). -/
def sortDesc : List (String × ℚ) → List (String × ℚ)
  | [] => []
  | a :: as_ => insertDesc a (sortDesc as_)

/-- The in-place conversion `X["date"] = pd.to_numeric(pd.to_datetime(X["date"]))`,
    with the date-to-number transformation abstracted as `dateConv`. -/
def applyDateConv (dateConv : List ℚ → List ℚ)
    (X : List (String × List ℚ)) : List (String × List ℚ) :=
  X.map (fun c => if c.1 = "date" then (c.1, dateConv c.2) else c)

/-- The `(feature, abs(corr))` list built by `feature_selection` after the
    date conversion. -/
def correlationsOf (O : RealOps) (dateConv : List ℚ → List ℚ)
    (X : List (String × List ℚ)) (y : List ℚ) : List (String × ℚ) :=
  (applyDateConv dateConv X).map (fun c => (c.1, |pearson_correlation O c.2 y|))

/-- `feature_selection(X, y, n_features)` from `hw4.py`: sort the
    `(feature, abs corr)` pairs descending by the absolute correlation
    (stably) and return the first `n_features` names. -/
def feature_selection (O : RealOps) (dateConv : List ℚ → List ℚ)
    (X : List (String × List ℚ)) (y : List ℚ) (n_features : ℕ) : List String :=
  ((sortDesc (correlationsOf O dateConv X y)).take n_features).map Prod.fst

/-- `norm_pdf(data, mu, sigma)` from `hw4.py`, at a scalar point. -/
def norm_pdf (O : RealOps) (x mu sigma : ℚ) : ℚ :=
  (1 / (sigma * O.sqrt (2 * O.pi))) * O.exp (-((x - mu) ^ 2) / (2 * sigma ^ 2))

/-- `gmm_pdf(data, weights, mus, sigmas)` from `hw4.py`, at a scalar point:
    `sum(weights[j] * norm_pdf(data, mus[j], sigmas[j]) for j in range(k))`
    with `k = len(weights)`. -/
def gmm_pdf (O : RealOps) (weights mus sigmas : List ℚ) (x : ℚ) : ℚ :=
  ((List.range weights.length).map
    (fun j => weights.getD j 0 * norm_pdf O x (mus.getD j 0) (sigmas.getD j 0))).sum

/-- Concrete interpretation of the primitives used by witnesses: `exp` is
    constantly `1`, the logarithms are constantly `0`, `sqrt` is the
    identity and `pi = 1/2` (so `sqrt (2 * pi) = 1`). -/
def oneOps : RealOps :=
  { exp := fun _ => 1, log := fun _ => 0, log2 := fun _ => 0,
    sqrt := fun q => q, pi := 1 / 2 }

/-- Concrete interpretation whose `exp` is the affine map `1 + q`, so that
    Gaussian responsibilities genuinely depend on the means. -/
def affOps : RealOps :=
  { exp := fun q => 1 + q, log := fun _ => 0, log2 := fun _ => 0,
    sqrt := fun q => q, pi := 1 / 2 }

theorem insertDesc_perm (a : String × ℚ) (l : List (String × ℚ)) :
    (insertDesc a l).Perm (a :: l) := by
  induction l with
  | nil => simp [insertDesc]
  | cons b bs ih =>
    by_cases h : a.2 ≥ b.2
    · simp [insertDesc, h]
    · simp only [insertDesc, if_neg h]
      exact ((ih.cons b).trans (List.Perm.swap a b bs))

theorem sortDesc_perm (l : List (String × ℚ)) : (sortDesc l).Perm l := by
  induction l with
  | nil => simp [sortDesc]
  | cons a as_ ih =>
    exact (insertDesc_perm a (sortDesc as_)).trans (ih.cons a)

theorem insertDesc_pairwise (a : String × ℚ) (l : List (String × ℚ))
    (h : List.Pairwise (fun p q => q.2 ≤ p.2) l) :
    List.Pairwise (fun p q => q.2 ≤ p.2) (insertDesc a l) := by
  induction l with
  | nil => simp [insertDesc]
  | cons b bs ih =>
    rcases List.pairwise_cons.mp h with ⟨hb, hbs⟩
    by_cases hab : a.2 ≥ b.2
    · simp only [insertDesc, if_pos hab]
      refine List.pairwise_cons.mpr ⟨?_, h⟩
      intro p hp
      rcases List.mem_cons.mp hp with hp | hp
      · subst hp; exact hab
      · exact le_trans (hb p hp) hab
    · simp only [insertDesc, if_neg hab]
      refine List.pairwise_cons.mpr ⟨?_, ih hbs⟩
      intro p hp
      rcases List.mem_cons.mp ((insertDesc_perm a bs).mem_iff.mp hp) with hp2 | hp2
      · subst hp2
        exact le_of_not_ge hab
      · exact hb p hp2

theorem sortDesc_pairwise (l : List (String × ℚ)) :
    List.Pairwise (fun p q => q.2 ≤ p.2) (sortDesc l) := by
  induction l with
  | nil => simp [sortDesc]
  | cons a as_ ih => exact insertDesc_pairwise a (sortDesc as_) ih

theorem insertDesc_filter (a : String × ℚ) (l : List (String × ℚ)) (q : ℚ) :
    (insertDesc a l).filter (fun p => decide (p.2 = q))
      = (a :: l).filter (fun p => decide (p.2 = q)) := by
  induction l with
  | nil => simp [insertDesc]
  | cons b bs ih =>
    by_cases hab : a.2 ≥ b.2
    · simp [insertDesc, if_pos hab]
    · have hba : a.2 < b.2 := lt_of_not_ge hab
      simp only [insertDesc, if_neg hab]
      by_cases hb : b.2 = q
      · have ha : ¬ a.2 = q := fun h => (ne_of_lt hba) (h.trans hb.symm)
        simp [List.filter_cons, hb, ha, ih]
      · by_cases ha : a.2 = q
        · simp [List.filter_cons, hb, ha, ih]
        · simp [List.filter_cons, hb, ha, ih]

theorem sortDesc_filter (l : List (String × ℚ)) (q : ℚ) :
    (sortDesc l).filter (fun p => decide (p.2 = q))
      = l.filter (fun p => decide (p.2 = q)) := by
  induction l with
  | nil => simp [sortDesc]
  | cons a as_ ih =>
    calc (insertDesc a (sortDesc as_)).filter (fun p => decide (p.2 = q))
        = (a :: sortDesc as_).filter (fun p => decide (p.2 = q)) :=
          insertDesc_filter a (sortDesc as_) q
      _ = (a :: as_).filter (fun p => decide (p.2 = q)) := by
          by_cases haq : a.2 = q
          · simp [List.filter, haq, ih]
          · simp [List.filter, haq, ih]

/-- C7: if either input vector of `pearson_correlation` has zero variance,
    the denominator `np.sqrt(Sxx * Syy)` is zero, so the final division is
    a division by zero — in NumPy a non-finite value (`inf`/`nan`), not a
    raised error; with nonzero variances the result is the covariance of
    the centered vectors divided by the product of the raw (not
    `m`-divided) root sums of squares.  The hypotheses state facts of the
    real square root (`sqrt 0 = 0`, multiplicativity at this argument). -/
theorem C7_pearson_division_by_zero (O : RealOps) (x y : List ℚ)
    (h0 : O.sqrt 0 = 0) :
    ((sqSum x = 0 ∨ sqSum y = 0) → pearsonDen O x y = 0)
    ∧ (sqSum x ≠ 0 → sqSum y ≠ 0 →
        O.sqrt (sqSum x * sqSum y) = O.sqrt (sqSum x) * O.sqrt (sqSum y) →
        pearson_correlation O x y
          = pearsonNum x y / (O.sqrt (sqSum x) * O.sqrt (sqSum y))) := by
  constructor
  · intro h
    rcases h with h | h <;> simp [pearsonDen, h, h0]
  · intro _ _ hmul
    simp only [pearson_correlation, pearsonDen, hmul]

theorem C7_pearson_division_by_zero_witness :
    pearsonDen oneOps [1, 1] [0, 1] = 0
    ∧ pearson_correlation oneOps [0, 1] [0, 2]
        = pearsonNum [0, 1] [0, 2]
            / (oneOps.sqrt (sqSum [0, 1]) * oneOps.sqrt (sqSum [0, 2])) :=
  ⟨(C7_pearson_division_by_zero oneOps [1, 1] [0, 1] rfl).1
     (Or.inl (by norm_num [sqSum, centered, npMean])),
   (C7_pearson_division_by_zero oneOps [0, 1] [0, 2] rfl).2
     (by norm_num [sqSum, centered, npMean])
     (by norm_num [sqSum, centered, npMean])
     (by norm_num [oneOps])⟩

/-- C8: `feature_selection` returns the names of the first `n_features`
    entries of the sorted `(feature, abs corr)` list, and that sorted list
    is exactly the stable descending reordering of the per-column absolute
    correlations: it is a permutation of them, its keys are descending, and
    columns with equal keys keep their original relative order (the
    filter-by-key characterisation of stability).  The hypothesis restricts
    to tables whose columns all have finite correlation against `y` (a
    zero-variance column would make NumPy produce `nan`, escaping the
    rational embedding). -/
theorem C8_feature_selection_top_abs_corr (O : RealOps)
    (dateConv : List ℚ → List ℚ) (X : List (String × List ℚ)) (y : List ℚ)
    (n_features : ℕ)
    (hfin : ∀ c ∈ applyDateConv dateConv X, pearsonDen O c.2 y ≠ 0) :
    feature_selection O dateConv X y n_features
      = ((sortDesc (correlationsOf O dateConv X y)).take n_features).map Prod.fst
    ∧ (sortDesc (correlationsOf O dateConv X y)).Perm
        (correlationsOf O dateConv X y)
    ∧ List.Pairwise (fun p q => q.2 ≤ p.2)
        (sortDesc (correlationsOf O dateConv X y))
    ∧ ∀ q : ℚ,
        (sortDesc (correlationsOf O dateConv X y)).filter
            (fun p => decide (p.2 = q))
          = (correlationsOf O dateConv X y).filter (fun p => decide (p.2 = q)) :=
  ⟨rfl, sortDesc_perm _, sortDesc_pairwise _, fun q => sortDesc_filter _ q⟩

theorem C8_feature_selection_top_abs_corr_witness :
    (∀ c ∈ applyDateConv (fun v => v) [("a", [0, 1]), ("b", [0, 2])],
      pearsonDen oneOps c.2 [0, 1] ≠ 0)
    ∧ (feature_selection oneOps (fun v => v) [("a", [0, 1]), ("b", [0, 2])] [0, 1] 1
        = ((sortDesc (correlationsOf oneOps (fun v => v)
            [("a", [0, 1]), ("b", [0, 2])] [0, 1])).take 1).map Prod.fst
      ∧ (sortDesc (correlationsOf oneOps (fun v => v)
            [("a", [0, 1]), ("b", [0, 2])] [0, 1])).Perm
          (correlationsOf oneOps (fun v => v) [("a", [0, 1]), ("b", [0, 2])] [0, 1])
      ∧ List.Pairwise (fun p q => q.2 ≤ p.2)
          (sortDesc (correlationsOf oneOps (fun v => v)
            [("a", [0, 1]), ("b", [0, 2])] [0, 1]))
      ∧ ∀ q : ℚ,
          (sortDesc (correlationsOf oneOps (fun v => v)
              [("a", [0, 1]), ("b", [0, 2])] [0, 1])).filter
              (fun p => decide (p.2 = q))
            = (correlationsOf oneOps (fun v => v)
                [("a", [0, 1]), ("b", [0, 2])] [0, 1]).filter
                (fun p => decide (p.2 = q))) :=
  ⟨by norm_num [applyDateConv, pearsonDen, sqSum, centered, npMean, oneOps],
   C8_feature_selection_top_abs_corr oneOps (fun v => v)
     [("a", [0, 1]), ("b", [0, 2])] [0, 1] 1
     (by norm_num [applyDateConv, pearsonDen, sqSum, centered, npMean, oneOps])⟩

/-- The early-stop test shared by `LogisticRegressionGD.fit` and `EM.fit`:
    `i > 1 and (hist[-2] - hist[-1]) < eps`, where `hist` is the full cost
    history attribute (including entries appended by earlier `fit` calls)
    and `i` is the 0-based loop index. -/
def stopCheck (i : ℕ) (js : List ℚ) (eps : ℚ) : Bool :=
  decide (1 < i)
    && decide (js.getD (js.length - 2) 0 - js.getD (js.length - 1) 0 < eps)

/-- The `for i in range(n_iter)` training loop shared by both fits: run one
    `step` (which returns the new state and the cost to record), append the
    cost to the history, and break when `stopCheck` holds.  Returns the
    final state, the history, and the number of completed iterations. -/
def fitLoop {σ : Type} (step : σ → σ × ℚ) (eps : ℚ) :
    ℕ → ℕ → σ → List ℚ → σ × List ℚ × ℕ
  | 0, _, s, js => (s, js, 0)
  | fuel + 1, i, s, js =>
    if stopCheck i (js ++ [(step s).2]) eps then ((step s).1, js ++ [(step s).2], 1)
    else
      ((fitLoop step eps fuel (i + 1) (step s).1 (js ++ [(step s).2])).1,
       (fitLoop step eps fuel (i + 1) (step s).1 (js ++ [(step s).2])).2.1,
       (fitLoop step eps fuel (i + 1) (step s).1 (js ++ [(step s).2])).2.2 + 1)

theorem stopCheck_append (i : ℕ) (pre app : List ℚ) (eps : ℚ)
    (h : i + 1 ≤ app.length) :
    stopCheck i (pre ++ app) eps = stopCheck i app eps := by
  by_cases hi : 1 < i
  · have e1 : (pre ++ app).getD ((pre ++ app).length - 1) 0
        = app.getD (app.length - 1) 0 := by
      rw [List.length_append, List.getD_append_right pre app 0 _ (by omega)]
      congr 1
      omega
    have e2 : (pre ++ app).getD ((pre ++ app).length - 2) 0
        = app.getD (app.length - 2) 0 := by
      rw [List.length_append, List.getD_append_right pre app 0 _ (by omega)]
      congr 1
      omega
    simp only [stopCheck]
    rw [e1, e2]
  · simp [stopCheck, hi]

theorem take_append_self (js l2 : List ℚ) (i : ℕ) (h : js.length = i) :
    (js ++ l2).take i = js := by
  subst h
  exact List.take_left js l2

/-- The appended part of the loop's history does not depend on the history
    it starts from: the early-stop test only ever reads entries appended by
    the current call (the guard `i > 1` ensures at least three have been). -/
theorem fitLoop_append {σ : Type} (step : σ → σ × ℚ) (eps : ℚ) (pre : List ℚ) :
    ∀ (fuel i : ℕ) (s : σ) (app : List ℚ), app.length = i →
      fitLoop step eps fuel i s (pre ++ app)
        = ((fitLoop step eps fuel i s app).1,
           pre ++ (fitLoop step eps fuel i s app).2.1,
           (fitLoop step eps fuel i s app).2.2) := by
  intro fuel
  induction fuel with
  | zero => intro i s app h; rfl
  | succ fuel ih =>
    intro i s app h
    simp only [fitLoop, List.append_assoc]
    rw [stopCheck_append i pre (app ++ [(step s).2]) eps (by simp [h])]
    by_cases hc : stopCheck i (app ++ [(step s).2]) eps
    · simp [hc]
    · simp only [hc, if_false, Bool.false_eq_true]
      rw [ih (i + 1) (step s).1 (app ++ [(step s).2]) (by simp [h])]

/-- Behaviour of the training loop when started consistently (history
    length equals the loop index, as in a fresh run): the history grows by
    exactly one entry per completed iteration, at most `fuel` iterations
    run, the starting history is preserved as a prefix, an early exit
    happens only with the stop condition true at the final entry, and the
    stop condition was false at every earlier checked position. -/
theorem fitLoop_spec {σ : Type} (step : σ → σ × ℚ) (eps : ℚ) :
    ∀ (fuel i : ℕ) (s : σ) (js : List ℚ), js.length = i →
      ((fitLoop step eps fuel i s js).2.1.length
          = i + (fitLoop step eps fuel i s js).2.2)
      ∧ ((fitLoop step eps fuel i s js).2.2 ≤ fuel)
      ∧ ((fitLoop step eps fuel i s js).2.1.take i = js)
      ∧ ((fitLoop step eps fuel i s js).2.2 < fuel →
          stopCheck ((fitLoop step eps fuel i s js).2.1.length - 1)
            (fitLoop step eps fuel i s js).2.1 eps = true)
      ∧ (∀ t, i ≤ t → t + 1 < (fitLoop step eps fuel i s js).2.1.length →
          stopCheck t ((fitLoop step eps fuel i s js).2.1.take (t + 1)) eps
            = false) := by
  intro fuel
  induction fuel with
  | zero =>
    intro i s js h
    refine ⟨?_, ?_, ?_, ?_, ?_⟩
    · simp [fitLoop, h]
    · simp [fitLoop]
    · simp only [fitLoop]
      rw [← h]
      exact List.take_length js
    · intro hlt
      simp [fitLoop] at hlt
    · intro t ht1 ht2
      simp only [fitLoop] at ht2
      omega
  | succ fuel ih =>
    intro i s js h
    by_cases hc : stopCheck i (js ++ [(step s).2]) eps
    · have hr : fitLoop step eps (fuel + 1) i s js
          = ((step s).1, js ++ [(step s).2], 1) := by
        simp only [fitLoop, hc, if_true]
      refine ⟨by simp [hr, h], by simp [hr], ?_, ?_, ?_⟩
      · rw [hr]
        exact take_append_self js [(step s).2] i h
      · intro _
        rw [hr]
        simpa [h] using hc
      · intro t ht1 ht2
        rw [hr] at ht2
        simp only [List.length_append, List.length_cons, List.length_nil, h] at ht2
        omega
    · have hr : fitLoop step eps (fuel + 1) i s js
          = ((fitLoop step eps fuel (i + 1) (step s).1 (js ++ [(step s).2])).1,
             (fitLoop step eps fuel (i + 1) (step s).1 (js ++ [(step s).2])).2.1,
             (fitLoop step eps fuel (i + 1) (step s).1 (js ++ [(step s).2])).2.2
               + 1) := by
        simp only [fitLoop, hc, if_false, Bool.false_eq_true]
      have hlen : (js ++ [(step s).2]).length = i + 1 := by simp [h]
      obtain ⟨ha, hb, hcx, hd, he⟩ :=
        ih (i + 1) (step s).1 (js ++ [(step s).2]) hlen
      refine ⟨by rw [hr]; dsimp only; omega, by rw [hr]; dsimp only; omega,
        ?_, ?_, ?_⟩
      · rw [hr]
        dsimp only
        have hq : (fitLoop step eps fuel (i + 1) (step s).1
            (js ++ [(step s).2])).2.1.take i
            = ((fitLoop step eps fuel (i + 1) (step s).1
                (js ++ [(step s).2])).2.1.take (i + 1)).take i := by
          rw [List.take_take]
          congr 1
          omega
        rw [hq, hcx]
        exact take_append_self js [(step s).2] i h
      · intro hlt
        rw [hr] at hlt ⊢
        dsimp only at hlt ⊢
        exact hd (by omega)
      · intro t ht1 ht2
        rw [hr] at ht2 ⊢
        dsimp only at ht2 ⊢
        rcases Nat.eq_or_lt_of_le ht1 with he1 | he1
        · subst he1
          rw [hcx]
          simpa using hc
        · exact he t (by omega) (by omega)

/-- `LogisticRegressionGD.sigmoid`. -/
def sigmoidQ (O : RealOps) (z : ℚ) : ℚ := 1 / (1 + O.exp (-z))

/-- `LogisticRegressionGD.cost_function(h, y)`:
    `(y.dot(log h) + (1-y).dot(log(1-h))) / -m` with `m = h.shape[0]`. -/
def cost_function (O : RealOps) (h y : List ℚ) : ℚ :=
  (dotQ y (h.map O.log)
      + dotQ (y.map (fun v => 1 - v)) (h.map (fun v => O.log (1 - v))))
    / (-(h.length : ℚ))

/-- `apply_bias_trick`: prepend a constant `1` column. -/
def apply_bias_trick (X : List (List ℚ)) : List (List ℚ) :=
  X.map (fun r => 1 :: r)

/-- The state of `LogisticRegressionGD`: hyperparameters, the parameter
    vector `theta` (`None` before the first fit, modelled as `[]`), and the
    history attributes `Js` and `thetas`. -/
structure LRGDModel where
  eta : ℚ
  n_iter : ℕ
  eps : ℚ
  random_state : ℤ
  theta : List ℚ
  Js : List ℚ
  thetas : List (List ℚ)

/-- `LogisticRegressionGD.__init__`. -/
def LRGD_new (eta : ℚ) (n_iter : ℕ) (eps : ℚ) (rs : ℤ) : LRGDModel :=
  { eta := eta, n_iter := n_iter, eps := eps, random_state := rs,
    theta := [], Js := [], thetas := [] }

/-- One iteration of the `LogisticRegressionGD.fit` loop, on the state
    `(theta, thetas)`: compute the sigmoid of the linear score, the
    gradient `eta * X.T.dot(sigmoid - y)`, subtract it from `theta`, append
    the updated `theta` to the history, and record the cost of the
    pre-update sigmoid. -/
def lrgdStep (O : RealOps) (eta : ℚ) (Xb : List (List ℚ)) (y : List ℚ) :
    (List ℚ × List (List ℚ)) → (List ℚ × List (List ℚ)) × ℚ := fun s =>
  ((vsub s.1 ((List.range (ncols Xb)).map (fun i =>
      eta * dotQ (colQ Xb i) (vsub (Xb.map (fun row => sigmoidQ O (dotQ row s.1))) y))),
    s.2 ++ [vsub s.1 ((List.range (ncols Xb)).map (fun i =>
      eta * dotQ (colQ Xb i) (vsub (Xb.map (fun row => sigmoidQ O (dotQ row s.1))) y)))]),
   cost_function O (Xb.map (fun row => sigmoidQ O (dotQ row s.1))) y)

/-- `LogisticRegressionGD.fit(X, y)`: seed the global generator with
    `random_state`, apply the bias trick, draw a random initial `theta` of
    length `X.shape[1]`, then run the training loop.  Returns the updated
    model, the generator state, and the number of completed iterations. -/
def LRGD_fitAux (R : Rng) (O : RealOps) (m : LRGDModel) (X : List (List ℚ))
    (y : List ℚ) (st : R.State) : LRGDModel × R.State × ℕ :=
  let st1 := R.seed m.random_state
  let Xb := apply_bias_trick X
  let dr := R.random st1 (ncols Xb)
  let r := fitLoop (lrgdStep O m.eta Xb y) m.eps m.n_iter 0 (dr.1, m.thetas) m.Js
  ({ m with theta := r.1.1, thetas := r.1.2, Js := r.2.1 }, dr.2, r.2.2)

def LRGD_fit (R : Rng) (O : RealOps) (m : LRGDModel) (X : List (List ℚ))
    (y : List ℚ) (st : R.State) : LRGDModel × R.State :=
  ((LRGD_fitAux R O m X y st).1, (LRGD_fitAux R O m X y st).2.1)

/-- Number of completed iterations of one `LogisticRegressionGD.fit` call. -/
def LRGD_iters (R : Rng) (O : RealOps) (m : LRGDModel) (X : List (List ℚ))
    (y : List ℚ) (st : R.State) : ℕ :=
  (LRGD_fitAux R O m X y st).2.2

/-- A `(weights, mus, sigmas)` triple of 1-D mixture parameters. -/
structure GMMParams where
  weights : List ℚ
  mus : List ℚ
  sigmas : List ℚ

/-- The state of an `EM` instance. -/
structure EMModel where
  k : ℕ
  n_iter : ℕ
  eps : ℚ
  random_state : ℤ
  responsibilities : List (List ℚ)
  weights : List ℚ
  mus : List ℚ
  sigmas : List ℚ
  costs : List ℚ

/-- `EM.__init__`: stores the hyperparameters and seeds the global
    generator at construction time — `np.random.seed(self.random_state)`
    runs in `__init__`, not in `fit` (the incoming generator state is
    discarded here, and `fit` itself never reseeds). -/
def EM_new (R : Rng) (k n_iter : ℕ) (eps : ℚ) (rs : ℤ) (_st : R.State) :
    EMModel × R.State :=
  ({ k := k, n_iter := n_iter, eps := eps, random_state := rs,
     responsibilities := [], weights := [], mus := [], sigmas := [],
     costs := [] }, R.seed rs)

/-- `np.std(data)`: square root of the mean squared deviation. -/
def npStd (O : RealOps) (data : List ℚ) : ℚ :=
  O.sqrt ((data.map (fun x => (x - npMean data) ^ 2)).sum / (data.length : ℚ))

/-- `EM.init_params(data)`: uniform weights `1/k`, means drawn by
    `np.random.choice(len(data), k, replace=False)` from the data, and all
    sigmas set to `np.std(data)`. -/
def init_params (R : Rng) (O : RealOps) (k : ℕ) (data : List ℚ)
    (st : R.State) : GMMParams × R.State :=
  ({ weights := List.replicate k ((1 : ℚ) / (k : ℚ)),
     mus := (R.choice st data.length k).1.map (fun i => data.getD i 0),
     sigmas := List.replicate k (npStd O data) },
   (R.choice st data.length k).2)

/-- `EM.expectation(data)`: row `j` holds
    `weights[i] * norm_pdf(data[j], mus[i], sigmas[i])` for `i < k`,
    divided by the row sum.  (The source assembles the same matrix column
    by column with `np.c_` and then divides by `row_sums[:, np.newaxis]`;
    the entries are identical.) -/
def expectation (O : RealOps) (k : ℕ) (data : List ℚ) (p : GMMParams) :
    List (List ℚ) :=
  data.map (fun x =>
    ((List.range k).map (fun i =>
        p.weights.getD i 0 * norm_pdf O x (p.mus.getD i 0) (p.sigmas.getD i 0))).map
      (fun v => v /
        ((List.range k).map (fun i =>
          p.weights.getD i 0 * norm_pdf O x (p.mus.getD i 0) (p.sigmas.getD i 0))).sum))

/-- `EM.maximization(data)`: sequentially, `weights = np.mean(resp, axis=0)`,
    then `mus = (1/(m*weights)) * resp.T.dot(data)` using the *updated*
    weights, then `sigmas[i] = resp.T[i].dot((data - mus[i])**2)` using the
    *updated* mus, rescaled and square-rooted as
    `sigmas = np.sqrt((1/(m*weights)) * sigmas)`. -/
def maximization (O : RealOps) (k : ℕ) (data : List ℚ)
    (resp : List (List ℚ)) : GMMParams :=
  let w2 := (List.range k).map (fun i => (colQ resp i).sum / (resp.length : ℚ))
  let scale := w2.map (fun w => 1 / ((data.length : ℚ) * w))
  let mus2 := List.zipWith (· * ·) scale
    ((List.range k).map (fun i => dotQ (colQ resp i) data))
  let sigTmp := (List.range k).map (fun i =>
    dotQ (colQ resp i) (data.map (fun x => (x - mus2.getD i 0) ^ 2)))
  { weights := w2, mus := mus2,
    sigmas := (List.zipWith (· * ·) scale sigTmp).map O.sqrt }

/-- One iteration of the `EM.fit` loop on the state `(params, resp)`:
    expectation, then maximization, then the cost
    `-(sum over d of log2(gmm_pdf(data[d], weights, mus, sigmas)))` at the
    freshly updated parameters. -/
def emStep (O : RealOps) (k : ℕ) (data : List ℚ) :
    (GMMParams × List (List ℚ)) → (GMMParams × List (List ℚ)) × ℚ := fun s =>
  ((maximization O k data (expectation O k data s.1),
    expectation O k data s.1),
   -((data.map (fun x =>
       O.log2 (gmm_pdf O
         (maximization O k data (expectation O k data s.1)).weights
         (maximization O k data (expectation O k data s.1)).mus
         (maximization O k data (expectation O k data s.1)).sigmas x))).sum))

/-- `EM.fit(data)`: `init_params` (consuming the *incoming* generator
    state — `fit` does not reseed), then the training loop. -/
def EM_fitAux (R : Rng) (O : RealOps) (m : EMModel) (data : List ℚ)
    (st : R.State) : EMModel × R.State × ℕ :=
  let ip := init_params R O m.k data st
  let r := fitLoop (emStep O m.k data) m.eps m.n_iter 0
    (ip.1, m.responsibilities) m.costs
  ({ m with
      weights := r.1.1.weights
      mus := r.1.1.mus
      sigmas := r.1.1.sigmas
      responsibilities := r.1.2
      costs := r.2.1 },
   ip.2, r.2.2)

def EM_fit (R : Rng) (O : RealOps) (m : EMModel) (data : List ℚ)
    (st : R.State) : EMModel × R.State :=
  ((EM_fitAux R O m data st).1, (EM_fitAux R O m data st).2.1)

/-- Number of completed iterations of one `EM.fit` call. -/
def EM_iters (R : Rng) (O : RealOps) (m : EMModel) (data : List ℚ)
    (st : R.State) : ℕ :=
  (EM_fitAux R O m data st).2.2

/-- `EM.get_dist_params()`. -/
def get_dist_params (m : EMModel) : GMMParams :=
  { weights := m.weights, mus := m.mus, sigmas := m.sigmas }

theorem getD_append_add (pre app : List ℚ) (j : ℕ) (d : ℚ) :
    (pre ++ app).getD (pre.length + j) d = app.getD j d := by
  rw [List.getD_append_right pre app d _ (by omega)]
  congr 1
  omega

theorem getD_take_lt (l : List ℚ) (n j : ℕ) (d : ℚ) (h : j < n) :
    (l.take n).getD j d = l.getD j d := by
  simp [List.getD_eq_getElem?_getD, List.getElem?_take, h]

theorem stopCheck_true_iff (i : ℕ) (js : List ℚ) (eps : ℚ) :
    stopCheck i js eps = true
      ↔ 1 < i ∧ js.getD (js.length - 2) 0 - js.getD (js.length - 1) 0 < eps := by
  simp [stopCheck]

theorem stopCheck_le_one (i : ℕ) (hi : i ≤ 1) (js : List ℚ) (eps : ℚ) :
    stopCheck i js eps = false := by
  have hd : decide (1 < i) = false := by
    simp
    omega
  simp [stopCheck, hd]

/-- Observable behaviour of one training-loop run started at loop index 0
    on top of an existing history `pre`: the appended part is independent
    of `pre`; the history grows by one entry per completed iteration; at
    most `fuel` iterations run; an early exit means the stop condition held
    at the final entry (loop index `count - 1`, which must exceed 1, and
    last cost difference below `eps`); and the condition held at no earlier
    checked loop index. -/
theorem fitRun_spec {σ : Type} (step : σ → σ × ℚ) (eps : ℚ) (fuel : ℕ)
    (s : σ) (pre : List ℚ) :
    (fitLoop step eps fuel 0 s pre).2.1
        = pre ++ (fitLoop step eps fuel 0 s []).2.1
    ∧ (fitLoop step eps fuel 0 s pre).1 = (fitLoop step eps fuel 0 s []).1
    ∧ (fitLoop step eps fuel 0 s pre).2.2 = (fitLoop step eps fuel 0 s []).2.2
    ∧ (fitLoop step eps fuel 0 s pre).2.1.length
        = pre.length + (fitLoop step eps fuel 0 s pre).2.2
    ∧ (fitLoop step eps fuel 0 s pre).2.2 ≤ fuel
    ∧ ((fitLoop step eps fuel 0 s pre).2.2 < fuel →
        1 < (fitLoop step eps fuel 0 s pre).2.2 - 1
        ∧ (fitLoop step eps fuel 0 s pre).2.1.getD
              ((fitLoop step eps fuel 0 s pre).2.1.length - 2) 0
            - (fitLoop step eps fuel 0 s pre).2.1.getD
              ((fitLoop step eps fuel 0 s pre).2.1.length - 1) 0 < eps)
    ∧ (∀ t, t + 1 < (fitLoop step eps fuel 0 s pre).2.2 →
        ¬(1 < t
          ∧ (fitLoop step eps fuel 0 s pre).2.1.getD (pre.length + t - 1) 0
              - (fitLoop step eps fuel 0 s pre).2.1.getD (pre.length + t) 0
            < eps)) := by
  have h0 := fitLoop_append step eps pre fuel 0 s [] rfl
  rw [List.append_nil] at h0
  obtain ⟨ha, hb, -, hd, he⟩ := fitLoop_spec step eps fuel 0 s [] rfl
  rw [Nat.zero_add] at ha
  refine ⟨by rw [h0], by rw [h0], by rw [h0], ?_, ?_, ?_, ?_⟩
  · rw [h0]
    simp [ha]
  · rw [h0]
    exact hb
  · intro hlt
    rw [h0] at hlt ⊢
    dsimp only at hlt ⊢
    obtain ⟨hs1, hs2⟩ := (stopCheck_true_iff _ _ _).mp (hd hlt)
    have hn3 : 3 ≤ (fitLoop step eps fuel 0 s []).2.1.length := by omega
    constructor
    · omega
    · have i1 : pre.length + (fitLoop step eps fuel 0 s []).2.1.length - 2
          = pre.length + ((fitLoop step eps fuel 0 s []).2.1.length - 2) := by
        omega
      have i2 : pre.length + (fitLoop step eps fuel 0 s []).2.1.length - 1
          = pre.length + ((fitLoop step eps fuel 0 s []).2.1.length - 1) := by
        omega
      rw [List.length_append, i1, i2, getD_append_add, getD_append_add]
      exact hs2
  · intro t hlt hcl
    rw [h0] at hcl
    dsimp only at hcl
    rw [h0] at hlt
    dsimp only at hlt
    obtain ⟨ht1, ht2⟩ := hcl
    have hfalse := he t (by omega) (by omega)
    rw [Bool.eq_false_iff] at hfalse
    apply hfalse
    rw [stopCheck_true_iff]
    refine ⟨ht1, ?_⟩
    have hlen : ((fitLoop step eps fuel 0 s []).2.1.take (t + 1)).length
        = t + 1 := by
      rw [List.length_take]
      omega
    rw [hlen]
    have j1 : t + 1 - 2 = t - 1 := by omega
    have j2 : t + 1 - 1 = t := by omega
    rw [j1, j2, getD_take_lt _ _ _ _ (by omega), getD_take_lt _ _ _ _ (by omega)]
    have i1 : pre.length + t - 1 = pre.length + (t - 1) := by omega
    rw [i1, getD_append_add, getD_append_add] at ht2
    exact ht2

theorem fitLoop_succ {σ : Type} (step : σ → σ × ℚ) (eps : ℚ) (fuel i : ℕ)
    (s : σ) (js : List ℚ) :
    fitLoop step eps (fuel + 1) i s js
      = if stopCheck i (js ++ [(step s).2]) eps
        then ((step s).1, js ++ [(step s).2], 1)
        else
          ((fitLoop step eps fuel (i + 1) (step s).1 (js ++ [(step s).2])).1,
           (fitLoop step eps fuel (i + 1) (step s).1 (js ++ [(step s).2])).2.1,
           (fitLoop step eps fuel (i + 1) (step s).1 (js ++ [(step s).2])).2.2
             + 1) := rfl

/-- If the first step sends `s0` to a fixed point `s1` with constant
    recorded cost `c`, the loop breaks at loop index 2 (the cost difference
    is `0 < eps`), after exactly three iterations. -/
theorem fitLoop_const_break {σ : Type} (step : σ → σ × ℚ) (eps : ℚ)
    (s0 s1 : σ) (c : ℚ) (h0 : step s0 = (s1, c)) (h1 : step s1 = (s1, c))
    (heps : 0 < eps) (fuel : ℕ) (js : List ℚ) :
    fitLoop step eps (fuel + 3) 0 s0 js = (s1, js ++ [c, c, c], 3) := by
  have hs0 : stopCheck 0 (js ++ [c]) eps = false :=
    stopCheck_le_one 0 (by omega) _ _
  have hs1 : stopCheck 1 (js ++ [c, c]) eps = false :=
    stopCheck_le_one 1 (by omega) _ _
  have hs2 : stopCheck 2 (js ++ [c, c, c]) eps = true := by
    rw [stopCheck_true_iff]
    refine ⟨by omega, ?_⟩
    have hl : (js ++ [c, c, c]).length = js.length + 3 := by simp
    have e1 : (js ++ [c, c, c]).getD (js.length + 1) 0 = c := by
      simpa using getD_append_add js [c, c, c] 1 0
    have e2 : (js ++ [c, c, c]).getD (js.length + 2) 0 = c := by
      simpa using getD_append_add js [c, c, c] 2 0
    have i1 : js.length + 3 - 2 = js.length + 1 := by omega
    have i2 : js.length + 3 - 1 = js.length + 2 := by omega
    rw [hl, i1, i2, e1, e2]
    simpa using heps
  have l1 : (js ++ [c]) ++ [c] = js ++ [c, c] := by simp
  have l2 : (js ++ [c, c]) ++ [c] = js ++ [c, c, c] := by simp
  rw [show fuel + 3 = fuel + 2 + 1 by omega, fitLoop_succ, h0]
  dsimp only
  rw [hs0]
  simp only [Bool.false_eq_true, if_false]
  rw [show fuel + 2 = fuel + 1 + 1 by omega, fitLoop_succ, h1]
  dsimp only
  rw [l1, hs1]
  simp only [Bool.false_eq_true, if_false]
  rw [fitLoop_succ, h1]
  dsimp only
  rw [l2, hs2]
  simp only [if_true]

/-- A concrete generator instance for witnesses: the state is a counter,
    `seed` resets it to 0, draws advance it; `choice s n k` returns the `k`
    distinct indices `s % n, (s+1) % n, ...` below `n`. -/
def cRng : Rng :=
  { State := ℕ
    seed := fun _ => 0
    random := fun s n => (List.replicate n (1 / 2), s + 1)
    choice := fun s n k => ((List.range k).map (fun j => (s + j) % n), s + 1)
    permutation := fun s n => (List.range n, s + 1) }

/-- The `thetas` history inside the loop state is append-only and the rest
    of the run does not depend on it. -/
theorem fitLoop_lrgd_hist (O : RealOps) (eta eps : ℚ) (Xb : List (List ℚ))
    (y : List ℚ) :
    ∀ (fuel i : ℕ) (θ : List ℚ) (pre hist : List (List ℚ)) (js : List ℚ),
      fitLoop (lrgdStep O eta Xb y) eps fuel i (θ, pre ++ hist) js
        = (((fitLoop (lrgdStep O eta Xb y) eps fuel i (θ, hist) js).1.1,
            pre ++ (fitLoop (lrgdStep O eta Xb y) eps fuel i (θ, hist) js).1.2),
           (fitLoop (lrgdStep O eta Xb y) eps fuel i (θ, hist) js).2.1,
           (fitLoop (lrgdStep O eta Xb y) eps fuel i (θ, hist) js).2.2) := by
  intro fuel
  induction fuel with
  | zero => intro i θ pre hist js; rfl
  | succ fuel ih =>
    intro i θ pre hist js
    simp only [fitLoop_succ, lrgdStep]
    by_cases hc : stopCheck i (js ++ [cost_function O
        (Xb.map (fun row => sigmoidQ O (dotQ row θ))) y]) eps
    · simp [hc, List.append_assoc]
    · simp only [hc, Bool.false_eq_true, if_false, List.append_assoc]
      rw [ih]

theorem fitLoop_lrgd_hist_len (O : RealOps) (eta eps : ℚ) (Xb : List (List ℚ))
    (y : List ℚ) :
    ∀ (fuel i : ℕ) (θ : List ℚ) (hist : List (List ℚ)) (js : List ℚ),
      (fitLoop (lrgdStep O eta Xb y) eps fuel i (θ, hist) js).1.2.length
        = hist.length
            + (fitLoop (lrgdStep O eta Xb y) eps fuel i (θ, hist) js).2.2 := by
  intro fuel
  induction fuel with
  | zero => intro i θ hist js; simp [fitLoop]
  | succ fuel ih =>
    intro i θ hist js
    simp only [fitLoop_succ, lrgdStep]
    by_cases hc : stopCheck i (js ++ [cost_function O
        (Xb.map (fun row => sigmoidQ O (dotQ row θ))) y]) eps
    · simp [hc]
    · simp only [hc, Bool.false_eq_true, if_false]
      rw [ih]
      simp only [List.length_append, List.length_cons, List.length_nil]
      omega

/-- Bundled facts about one `LogisticRegressionGD.fit` call. -/
theorem LRGD_fit_run (R : Rng) (O : RealOps) (m : LRGDModel)
    (X : List (List ℚ)) (y : List ℚ) (st : R.State) :
    (LRGD_fit R O m X y st).1.Js
        = m.Js ++ (LRGD_fit R O { m with Js := [], thetas := [] } X y st).1.Js
    ∧ (LRGD_fit R O m X y st).1.thetas
        = m.thetas
            ++ (LRGD_fit R O { m with Js := [], thetas := [] } X y st).1.thetas
    ∧ (LRGD_fit R O m X y st).1.Js.length
        = m.Js.length + LRGD_iters R O m X y st
    ∧ (LRGD_fit R O m X y st).1.thetas.length
        = m.thetas.length + LRGD_iters R O m X y st
    ∧ LRGD_iters R O m X y st ≤ m.n_iter
    ∧ (LRGD_iters R O m X y st < m.n_iter →
        1 < LRGD_iters R O m X y st - 1
        ∧ (LRGD_fit R O m X y st).1.Js.getD
              ((LRGD_fit R O m X y st).1.Js.length - 2) 0
            - (LRGD_fit R O m X y st).1.Js.getD
              ((LRGD_fit R O m X y st).1.Js.length - 1) 0 < m.eps)
    ∧ (∀ t, t + 1 < LRGD_iters R O m X y st →
        ¬(1 < t
          ∧ (LRGD_fit R O m X y st).1.Js.getD (m.Js.length + t - 1) 0
              - (LRGD_fit R O m X y st).1.Js.getD (m.Js.length + t) 0
            < m.eps)) := by
  obtain ⟨r1, r2, r3, r4, r5, r6, r7⟩ :=
    fitRun_spec (lrgdStep O m.eta (apply_bias_trick X) y) m.eps m.n_iter
      ((R.random (R.seed m.random_state) (ncols (apply_bias_trick X))).1,
        m.thetas) m.Js
  obtain ⟨f1, f2, f3, -, -, -, -⟩ :=
    fitRun_spec (lrgdStep O m.eta (apply_bias_trick X) y) m.eps m.n_iter
      ((R.random (R.seed m.random_state) (ncols (apply_bias_trick X))).1,
        ([] : List (List ℚ))) m.Js
  have hh := fitLoop_lrgd_hist O m.eta m.eps (apply_bias_trick X) y m.n_iter 0
    ((R.random (R.seed m.random_state) (ncols (apply_bias_trick X))).1)
    m.thetas [] m.Js
  rw [List.append_nil] at hh
  have hlen := fitLoop_lrgd_hist_len O m.eta m.eps (apply_bias_trick X) y
    m.n_iter 0
    ((R.random (R.seed m.random_state) (ncols (apply_bias_trick X))).1)
    m.thetas m.Js
  simp only [LRGD_fit, LRGD_fitAux, LRGD_iters]
  refine ⟨?_, ?_, ?_, ?_, ?_, ?_, ?_⟩
  · rw [hh]
    dsimp only
    exact f1
  · rw [hh]
    dsimp only
    rw [f2]
  · exact r4
  · exact hlen
  · exact r5
  · exact r6
  · exact r7

/-- Bundled facts about one `EM.fit` call. -/
theorem EM_fit_run (R : Rng) (O : RealOps) (m : EMModel) (data : List ℚ)
    (st : R.State) :
    (EM_fit R O m data st).1.costs
        = m.costs ++ (EM_fit R O { m with costs := [] } data st).1.costs
    ∧ (EM_fit R O m data st).1.costs.length
        = m.costs.length + EM_iters R O m data st
    ∧ EM_iters R O m data st ≤ m.n_iter
    ∧ (EM_iters R O m data st < m.n_iter →
        1 < EM_iters R O m data st - 1
        ∧ (EM_fit R O m data st).1.costs.getD
              ((EM_fit R O m data st).1.costs.length - 2) 0
            - (EM_fit R O m data st).1.costs.getD
              ((EM_fit R O m data st).1.costs.length - 1) 0 < m.eps)
    ∧ (∀ t, t + 1 < EM_iters R O m data st →
        ¬(1 < t
          ∧ (EM_fit R O m data st).1.costs.getD (m.costs.length + t - 1) 0
              - (EM_fit R O m data st).1.costs.getD (m.costs.length + t) 0
            < m.eps)) := by
  obtain ⟨r1, -, -, r4, r5, r6, r7⟩ :=
    fitRun_spec (emStep O m.k data) m.eps m.n_iter
      ((init_params R O m.k data st).1, m.responsibilities) m.costs
  simp only [EM_fit, EM_fitAux, EM_iters]
  exact ⟨r1, r4, r5, r6, r7⟩

/-- C2: for both `LogisticRegressionGD.fit` and `EM.fit` the training loop
    stops early exactly when the 0-based loop index `i` exceeds 1 and
    `hist[-2] - hist[-1] < eps`: when fewer than `n_iter` iterations
    complete, the condition held at the final entry (at least 3 iterations
    ran and the last cost drop was below `eps`), and it held at no earlier
    checked index; moreover, for nonnegative `eps` a cost increase at a
    checkable index stops the loop right there, because the negative
    difference is also below `eps`. -/
theorem C2_early_stop_shared_asymmetric (R : Rng) (O : RealOps) :
    (∀ (m : LRGDModel) (X : List (List ℚ)) (y : List ℚ) (st : R.State),
      LRGD_iters R O m X y st ≤ m.n_iter
      ∧ (LRGD_iters R O m X y st < m.n_iter →
          1 < LRGD_iters R O m X y st - 1
          ∧ (LRGD_fit R O m X y st).1.Js.getD
                ((LRGD_fit R O m X y st).1.Js.length - 2) 0
              - (LRGD_fit R O m X y st).1.Js.getD
                ((LRGD_fit R O m X y st).1.Js.length - 1) 0 < m.eps)
      ∧ (∀ t, t + 1 < LRGD_iters R O m X y st →
          ¬(1 < t
            ∧ (LRGD_fit R O m X y st).1.Js.getD (m.Js.length + t - 1) 0
                - (LRGD_fit R O m X y st).1.Js.getD (m.Js.length + t) 0
              < m.eps))
      ∧ (0 ≤ m.eps → ∀ t, 1 < t → t < LRGD_iters R O m X y st →
          (LRGD_fit R O m X y st).1.Js.getD (m.Js.length + t - 1) 0
              < (LRGD_fit R O m X y st).1.Js.getD (m.Js.length + t) 0 →
          LRGD_iters R O m X y st = t + 1))
    ∧ (∀ (m : EMModel) (data : List ℚ) (st : R.State),
      EM_iters R O m data st ≤ m.n_iter
      ∧ (EM_iters R O m data st < m.n_iter →
          1 < EM_iters R O m data st - 1
          ∧ (EM_fit R O m data st).1.costs.getD
                ((EM_fit R O m data st).1.costs.length - 2) 0
              - (EM_fit R O m data st).1.costs.getD
                ((EM_fit R O m data st).1.costs.length - 1) 0 < m.eps)
      ∧ (∀ t, t + 1 < EM_iters R O m data st →
          ¬(1 < t
            ∧ (EM_fit R O m data st).1.costs.getD (m.costs.length + t - 1) 0
                - (EM_fit R O m data st).1.costs.getD (m.costs.length + t) 0
              < m.eps))
      ∧ (0 ≤ m.eps → ∀ t, 1 < t → t < EM_iters R O m data st →
          (EM_fit R O m data st).1.costs.getD (m.costs.length + t - 1) 0
              < (EM_fit R O m data st).1.costs.getD (m.costs.length + t) 0 →
          EM_iters R O m data st = t + 1)) := by
  constructor
  · intro m X y st
    obtain ⟨-, -, -, -, h5, h6, h7⟩ := LRGD_fit_run R O m X y st
    refine ⟨h5, h6, h7, ?_⟩
    intro heps t ht1 htlt hinc
    by_cases hcase : t + 1 < LRGD_iters R O m X y st
    · exact absurd ⟨ht1, by linarith⟩ (h7 t hcase)
    · omega
  · intro m data st
    obtain ⟨-, -, h3, h4, h5⟩ := EM_fit_run R O m data st
    refine ⟨h3, h4, h5, ?_⟩
    intro heps t ht1 htlt hinc
    by_cases hcase : t + 1 < EM_iters R O m data st
    · exact absurd ⟨ht1, by linarith⟩ (h5 t hcase)
    · omega

/-- C10: neither fit clears its history attributes: one `fit` call appends
    to `Js`/`thetas` (`LogisticRegressionGD`) and `costs` (`EM`) exactly
    the entries of a fresh run, one per completed iteration, so after a
    second fit call on the same instance the lengths are the original
    length plus the two calls' completed iteration counts. -/
theorem C10_histories_never_cleared (R : Rng) (O : RealOps) :
    (∀ (m : LRGDModel) (X : List (List ℚ)) (y : List ℚ) (st : R.State),
      (LRGD_fit R O m X y st).1.Js
          = m.Js ++ (LRGD_fit R O { m with Js := [], thetas := [] } X y st).1.Js
      ∧ (LRGD_fit R O m X y st).1.thetas
          = m.thetas
              ++ (LRGD_fit R O { m with Js := [], thetas := [] } X y st).1.thetas
      ∧ (LRGD_fit R O m X y st).1.Js.length
          = m.Js.length + LRGD_iters R O m X y st
      ∧ (LRGD_fit R O m X y st).1.thetas.length
          = m.thetas.length + LRGD_iters R O m X y st
      ∧ (LRGD_fit R O (LRGD_fit R O m X y st).1 X y
            (LRGD_fit R O m X y st).2).1.Js.length
          = m.Js.length + LRGD_iters R O m X y st
              + LRGD_iters R O (LRGD_fit R O m X y st).1 X y
                  (LRGD_fit R O m X y st).2
      ∧ (LRGD_fit R O (LRGD_fit R O m X y st).1 X y
            (LRGD_fit R O m X y st).2).1.thetas.length
          = m.thetas.length + LRGD_iters R O m X y st
              + LRGD_iters R O (LRGD_fit R O m X y st).1 X y
                  (LRGD_fit R O m X y st).2)
    ∧ (∀ (m : EMModel) (data : List ℚ) (st : R.State),
      (EM_fit R O m data st).1.costs
          = m.costs ++ (EM_fit R O { m with costs := [] } data st).1.costs
      ∧ (EM_fit R O m data st).1.costs.length
          = m.costs.length + EM_iters R O m data st
      ∧ (EM_fit R O (EM_fit R O m data st).1 data
            (EM_fit R O m data st).2).1.costs.length
          = m.costs.length + EM_iters R O m data st
              + EM_iters R O (EM_fit R O m data st).1 data
                  (EM_fit R O m data st).2) := by
  constructor
  · intro m X y st
    obtain ⟨h1, h2, h3, h4, -, -, -⟩ := LRGD_fit_run R O m X y st
    obtain ⟨-, -, g3, g4, -, -, -⟩ :=
      LRGD_fit_run R O (LRGD_fit R O m X y st).1 X y (LRGD_fit R O m X y st).2
    exact ⟨h1, h2, h3, h4, by omega, by omega⟩
  · intro m data st
    obtain ⟨h1, h2, -, -, -⟩ := EM_fit_run R O m data st
    obtain ⟨-, g2, -, -, -⟩ :=
      EM_fit_run R O (EM_fit R O m data st).1 data (EM_fit R O m data st).2
    exact ⟨h1, h2, by omega⟩

theorem getD_map_range (k i : ℕ) (f : ℕ → ℚ) (h : i < k) :
    ((List.range k).map f).getD i 0 = f i := by
  rw [List.getD_eq_getElem?_getD, List.getElem?_map, List.getElem?_range h]
  rfl

theorem zipWith_map_same (l : List ℕ) (f g : ℕ → ℚ) :
    List.zipWith (· * ·) (l.map f) (l.map g) = l.map (fun x => f x * g x) := by
  rw [List.zipWith_map]
  exact List.zipWith_same _ _

/-- C3: the M-step computes, sequentially: `weights[i]` as the mean of
    responsibility column `i`; `mus[i]` as the responsibility-weighted sum
    of the data divided by `m * weights[i]` with the *updated* `weights[i]`;
    and `sigmas[i]` as the square root of the responsibility-weighted sum
    of squared deviations from the *already-updated* `mus[i]`, divided by
    `m * weights[i]` (again the updated value). -/
theorem C3_maximization_order (O : RealOps) (k : ℕ) (data : List ℚ)
    (resp : List (List ℚ)) (i : ℕ) (hik : i < k) :
    (maximization O k data resp).weights.getD i 0 = npMean (colQ resp i)
    ∧ (maximization O k data resp).mus.getD i 0
        = dotQ (colQ resp i) data
            / ((data.length : ℚ) * (maximization O k data resp).weights.getD i 0)
    ∧ (maximization O k data resp).sigmas.getD i 0
        = O.sqrt (dotQ (colQ resp i)
              (data.map (fun x =>
                (x - (maximization O k data resp).mus.getD i 0) ^ 2))
            / ((data.length : ℚ)
                * (maximization O k data resp).weights.getD i 0)) := by
  have hw : (maximization O k data resp).weights.getD i 0
      = (colQ resp i).sum / (resp.length : ℚ) := by
    simp only [maximization]
    rw [getD_map_range _ _ _ hik]
  have hmu : (maximization O k data resp).mus.getD i 0
      = (1 / ((data.length : ℚ) * ((colQ resp i).sum / (resp.length : ℚ))))
          * dotQ (colQ resp i) data := by
    simp only [maximization, List.map_map]
    rw [zipWith_map_same, getD_map_range _ _ _ hik]
    rfl
  have hsig : (maximization O k data resp).sigmas.getD i 0
      = O.sqrt ((1 / ((data.length : ℚ)
            * ((colQ resp i).sum / (resp.length : ℚ))))
          * dotQ (colQ resp i)
              (data.map (fun x =>
                (x - (maximization O k data resp).mus.getD i 0) ^ 2))) := by
    conv =>
      lhs
      simp only [maximization, List.map_map]
    rw [zipWith_map_same, List.map_map, getD_map_range _ _ _ hik]
    simp only [maximization, List.map_map, Function.comp]
  refine ⟨?_, ?_, ?_⟩
  · rw [hw]
    simp [npMean, colQ]
  · rw [hmu, hw, one_div_mul_eq_div]
  · rw [hsig, hw, one_div_mul_eq_div]

theorem C3_maximization_order_witness :
    (maximization oneOps 1 [2] [[1]]).weights.getD 0 0 = npMean (colQ [[1]] 0)
    ∧ (maximization oneOps 1 [2] [[1]]).mus.getD 0 0
        = dotQ (colQ [[1]] 0) [2]
            / (((2 : ℚ) / 2)
                * (maximization oneOps 1 [2] [[1]]).weights.getD 0 0)
    ∧ (maximization oneOps 1 [2] [[1]]).sigmas.getD 0 0
        = oneOps.sqrt (dotQ (colQ [[1]] 0)
              ([2].map (fun x =>
                (x - (maximization oneOps 1 [2] [[1]]).mus.getD 0 0) ^ 2))
            / (((2 : ℚ) / 2)
                * (maximization oneOps 1 [2] [[1]]).weights.getD 0 0)) := by
  have h := C3_maximization_order oneOps 1 [2] [[1]] 0 (by omega)
  have hlen : (([2] : List ℚ).length : ℚ) = (2 : ℚ) / 2 := by norm_num
  rw [hlen] at h
  exact h

theorem sum_map_div (l : List ℚ) (S : ℚ) :
    (l.map (fun v => v / S)).sum = l.sum / S := by
  induction l with
  | nil => simp
  | cons a l ih => simp [ih, add_div]

theorem sum_map_add (l : List ℕ) (f g : ℕ → ℚ) :
    (l.map (fun x => f x + g x)).sum = (l.map f).sum + (l.map g).sum := by
  induction l with
  | nil => simp
  | cons a l ih =>
    simp only [List.map_cons, List.sum_cons, ih]
    ring

theorem sum_getD_range (row : List ℚ) :
    ((List.range row.length).map (fun i => row.getD i 0)).sum = row.sum := by
  induction row with
  | nil => simp
  | cons a rest ih =>
    rw [List.length_cons, List.range_succ_eq_map]
    simp only [List.map_cons, List.map_map, List.sum_cons]
    have hmap : (List.range rest.length).map
          ((fun i => (a :: rest).getD i 0) ∘ Nat.succ)
        = (List.range rest.length).map (fun i => rest.getD i 0) := by
      apply List.map_congr_left
      intro i _
      rfl
    rw [hmap, ih]
    rfl

theorem sum_map_one (l : List (List ℚ)) :
    (l.map (fun _ => (1 : ℚ))).sum = (l.length : ℚ) := by
  induction l with
  | nil => simp
  | cons a t ih =>
    simp only [List.map_cons, List.sum_cons, ih, List.length_cons]
    push_cast
    ring

/-- Summing all column sums equals summing all row sums, when every row
    has exactly `k` entries. -/
theorem colsum_swap (k : ℕ) (resp : List (List ℚ))
    (h : ∀ row ∈ resp, row.length = k) :
    ((List.range k).map (fun i => (colQ resp i).sum)).sum
      = (resp.map List.sum).sum := by
  induction resp with
  | nil => simp [colQ]
  | cons row rest ih =>
    have hr : row.length = k := h row (by simp)
    have hrest : ∀ r ∈ rest, r.length = k := fun r hrr => h r (by simp [hrr])
    calc ((List.range k).map (fun i => (colQ (row :: rest) i).sum)).sum
        = ((List.range k).map
            (fun i => row.getD i 0 + (colQ rest i).sum)).sum := by
          apply congrArg
          apply List.map_congr_left
          intro i _
          rfl
      _ = ((List.range k).map (fun i => row.getD i 0)).sum
            + ((List.range k).map (fun i => (colQ rest i).sum)).sum :=
          sum_map_add _ _ _
      _ = row.sum + (rest.map List.sum).sum := by
          have h1 : ((List.range k).map (fun i => row.getD i 0)).sum
              = row.sum := by
            rw [← hr]
            exact sum_getD_range row
          rw [h1, ih hrest]
      _ = ((row :: rest).map List.sum).sum := by simp

/-- C5: after an expectation step every row of the responsibility matrix
    sums to 1 (provided its unnormalized row sum is nonzero — with real
    arithmetic it is a sum of positive densities; a zero sum would be the
    known degenerate 0/0 collapse), and a maximization step on a
    row-normalized matrix produces mixture weights summing to 1. -/
theorem C5_responsibility_rows_and_weights_sum_one (O : RealOps) (k : ℕ)
    (data : List ℚ) (p : GMMParams) (resp : List (List ℚ))
    (hrow : ∀ x ∈ data,
      ((List.range k).map (fun i =>
        p.weights.getD i 0
          * norm_pdf O x (p.mus.getD i 0) (p.sigmas.getD i 0))).sum ≠ 0)
    (hm : resp.length ≠ 0)
    (hshape : ∀ row ∈ resp, row.length = k ∧ row.sum = 1) :
    (∀ row ∈ expectation O k data p, row.sum = 1)
    ∧ (maximization O k data resp).weights.sum = 1 := by
  constructor
  · intro row hmem
    rw [expectation, List.mem_map] at hmem
    obtain ⟨x, hx, hrow_eq⟩ := hmem
    subst hrow_eq
    rw [sum_map_div]
    exact div_self (hrow x hx)
  · have hlen : ∀ row ∈ resp, row.length = k := fun r hr => (hshape r hr).1
    have hsum1 : ∀ row ∈ resp, row.sum = 1 := fun r hr => (hshape r hr).2
    simp only [maximization]
    have : (List.range k).map
          (fun i => (colQ resp i).sum / (resp.length : ℚ))
        = ((List.range k).map (fun i => (colQ resp i).sum)).map
            (fun v => v / (resp.length : ℚ)) := by
      rw [List.map_map]
      rfl
    rw [this, sum_map_div, colsum_swap k resp hlen]
    have hone : resp.map List.sum = resp.map (fun _ => (1 : ℚ)) :=
      List.map_congr_left (fun r hr => hsum1 r hr)
    rw [hone, sum_map_one]
    exact div_self (by exact_mod_cast hm)

theorem C5_responsibility_rows_and_weights_sum_one_witness :
    (∀ row ∈ expectation oneOps 1 [0] ⟨[1], [0], [1]⟩, row.sum = 1)
    ∧ (maximization oneOps 1 [0] [[1]]).weights.sum = 1 := by
  refine C5_responsibility_rows_and_weights_sum_one oneOps 1 [0]
    ⟨[1], [0], [1]⟩ [[1]] ?_ (by norm_num) ?_
  · intro x hx
    rcases List.mem_singleton.mp hx with rfl
    norm_num [norm_pdf, oneOps, List.range_succ]
  · intro row hrow
    rcases List.mem_singleton.mp hrow with rfl
    norm_num

/-- `np.delete(l, idxs, axis=0)`: keep, in order, the entries whose
    position is not listed in `idxs`. -/
def npDelete {α : Type} (l : List α) (idxs : List ℕ) : List α :=
  (l.enum.filter (fun p => decide (p.1 ∉ idxs))).map Prod.snd

/-- `elements_lst[(i-1)*q : i*q]` with `elements_lst = list(range(m))` and
    `q = m // folds`: the `i`-th test block of `cross_validation`
    (`i` counts from 1; the slice has length `i*q - (i-1)*q = q`,
    truncated at `m`). -/
def testIdx (mLen q i : ℕ) : List ℕ :=
  ((List.range mLen).drop ((i - 1) * q)).take q

/-- The positions `np.delete` keeps for fold `i`: the training rows. -/
def trainPositions (mLen q i : ℕ) : List ℕ :=
  npDelete (List.range mLen) (testIdx mLen q i)

/-- One fold of `cross_validation`: train `algo` on the rows outside the
    test block, predict the test block, and take
    `np.mean(test_predict == y_test)`. -/
def foldAccuracy {α : Type} (fitA : List (List ℚ) → List ℚ → α)
    (predA : α → List (List ℚ) → List ℚ) (mLen q : ℕ)
    (Xs : List (List ℚ)) (ys : List ℚ) (i : ℕ) : ℚ :=
  npMean (List.zipWith (fun a b => if a = b then (1 : ℚ) else 0)
    (predA (fitA (npDelete Xs (testIdx mLen q i))
        (npDelete ys (testIdx mLen q i)))
      ((testIdx mLen q i).map (fun p => Xs.getD p [])))
    ((testIdx mLen q i).map (fun p => ys.getD p 0)))

/-- The accumulation `cv_accuracy += fold_accuracy` over
    `i in range(1, folds+1)`. -/
def cvLoop (f : ℕ → ℚ) : ℕ → ℚ
  | 0 => 0
  | i + 1 => cvLoop f i + f (i + 1)

/-- `cross_validation(X, y, folds, algo, random_state)` from `hw4.py`:
    seed, shuffle the rows by `np.random.permutation`, and average the fold
    accuracies.  The collaborator `algo` is abstracted by its `fit` and
    `predict` capabilities (the source mutates `algo` in place; here `fit`
    returns the fitted model that `predict` consumes). -/
def cross_validation {α : Type} (R : Rng) (fitA : List (List ℚ) → List ℚ → α)
    (predA : α → List (List ℚ) → List ℚ) (X : List (List ℚ)) (y : List ℚ)
    (folds : ℕ) (random_state : ℤ) : ℚ :=
  cvLoop (foldAccuracy fitA predA X.length (X.length / folds)
      ((R.permutation (R.seed random_state) X.length).1.map
        (fun p => X.getD p []))
      ((R.permutation (R.seed random_state) X.length).1.map
        (fun p => y.getD p 0)))
    folds / (folds : ℚ)

theorem testIdx_eq_range' (mLen q i : ℕ) (h : (i - 1) * q + q ≤ mLen) :
    testIdx mLen q i = List.range' ((i - 1) * q) q := by
  apply List.ext_getElem
  · simp [testIdx]
    omega
  · intro j h1 h2
    simp only [testIdx, List.getElem_take, List.getElem_drop, List.getElem_range,
      List.getElem_range'_1]

theorem mem_npDelete_range (mLen : ℕ) (idxs : List ℕ) (p : ℕ) :
    p ∈ npDelete (List.range mLen) idxs ↔ p < mLen ∧ p ∉ idxs := by
  simp only [npDelete, List.mem_map, List.mem_filter]
  constructor
  · rintro ⟨⟨j, x⟩, ⟨hmem, hflt⟩, hsnd⟩
    have hx := List.mk_mem_enum_iff_getElem?.mp hmem
    simp only at hsnd hflt
    by_cases hj : j < mLen
    · rw [List.getElem?_range hj] at hx
      have hjx : j = x := by injection hx
      subst hjx
      subst hsnd
      exact ⟨hj, by simpa using hflt⟩
    · rw [List.getElem?_eq_none
          (show (List.range mLen).length ≤ j by simp; omega)] at hx
      cases hx
  · rintro ⟨hp, hnot⟩
    refine ⟨(p, p), ⟨?_, by simpa using hnot⟩, rfl⟩
    rw [List.mk_mem_enum_iff_getElem?, List.getElem?_range hp]

theorem mem_testIdx (mLen q i p : ℕ) (h : (i - 1) * q + q ≤ mLen) :
    p ∈ testIdx mLen q i ↔ (i - 1) * q ≤ p ∧ p < (i - 1) * q + q := by
  rw [testIdx_eq_range' mLen q i h]
  exact List.mem_range'_1

theorem cvLoop_eq_sum (f : ℕ → ℚ) (n : ℕ) :
    cvLoop f n = ∑ i in Finset.Icc 1 n, f i := by
  induction n with
  | zero => simp [cvLoop]
  | succ n ih =>
    rw [cvLoop, ih, Finset.sum_Icc_succ_top (by omega)]

/-- C4: `cross_validation` slices `range(m)` into `folds` contiguous test
    blocks of exactly `q = m // folds` positions each; every position below
    `folds*q` lies in exactly one test block; the remainder positions lie
    in no test block but in every fold's training positions; the returned
    value is the mean over the folds of the per-fold accuracy, and each
    fold's accuracy is the number of exact label matches on its held-out
    block divided by `q`. -/
theorem C4_cross_validation {α : Type} (R : Rng)
    (fitA : List (List ℚ) → List ℚ → α)
    (predA : α → List (List ℚ) → List ℚ) (X : List (List ℚ)) (y : List ℚ)
    (folds : ℕ) (rs : ℤ)
    (h2 : 2 ≤ folds) (hfm : folds ≤ X.length)
    (hpred : ∀ a Xt, (predA a Xt).length = Xt.length) :
    (∀ i, 1 ≤ i → i ≤ folds →
      (testIdx X.length (X.length / folds) i).length = X.length / folds)
    ∧ (∀ p, p < folds * (X.length / folds) →
        ∃! i, 1 ≤ i ∧ i ≤ folds
          ∧ p ∈ testIdx X.length (X.length / folds) i)
    ∧ (∀ p, folds * (X.length / folds) ≤ p → p < X.length →
        ∀ i, 1 ≤ i → i ≤ folds →
          p ∉ testIdx X.length (X.length / folds) i
          ∧ p ∈ trainPositions X.length (X.length / folds) i)
    ∧ cross_validation R fitA predA X y folds rs
        = (∑ i in Finset.Icc 1 folds,
            foldAccuracy fitA predA X.length (X.length / folds)
              ((R.permutation (R.seed rs) X.length).1.map
                (fun p => X.getD p []))
              ((R.permutation (R.seed rs) X.length).1.map
                (fun p => y.getD p 0)) i) / (folds : ℚ)
    ∧ (∀ (Xs : List (List ℚ)) (ys : List ℚ) i, 1 ≤ i → i ≤ folds →
        foldAccuracy fitA predA X.length (X.length / folds) Xs ys i
          = (List.zipWith (fun a b => if a = b then (1 : ℚ) else 0)
              (predA (fitA
                  (npDelete Xs (testIdx X.length (X.length / folds) i))
                  (npDelete ys (testIdx X.length (X.length / folds) i)))
                ((testIdx X.length (X.length / folds) i).map
                  (fun p => Xs.getD p [])))
              ((testIdx X.length (X.length / folds) i).map
                (fun p => ys.getD p 0))).sum
            / ((X.length / folds : ℕ) : ℚ)) := by
  have hq0 : 0 < X.length / folds := by
    have := (Nat.one_le_div_iff (show 0 < folds by omega)).mpr hfm
    omega
  have hfq : folds * (X.length / folds) ≤ X.length := by
    rw [mul_comm]
    exact Nat.div_mul_le_self X.length folds
  have hbound : ∀ i, 1 ≤ i → i ≤ folds →
      (i - 1) * (X.length / folds) + X.length / folds ≤ X.length := by
    intro i h1 h2i
    have e1 : (i - 1) * (X.length / folds)
        = i * (X.length / folds) - X.length / folds := Nat.sub_one_mul _ _
    have e2 : X.length / folds ≤ i * (X.length / folds) :=
      Nat.le_mul_of_pos_left _ (by omega)
    have e3 : i * (X.length / folds) ≤ folds * (X.length / folds) :=
      Nat.mul_le_mul_right _ h2i
    omega
  have hlen : ∀ i, 1 ≤ i → i ≤ folds →
      (testIdx X.length (X.length / folds) i).length = X.length / folds := by
    intro i h1 h2i
    rw [testIdx_eq_range' _ _ _ (hbound i h1 h2i)]
    exact List.length_range' _ _ _
  refine ⟨hlen, ?_, ?_, ?_, ?_⟩
  · intro p hp
    have hdiv : p / (X.length / folds) < folds :=
      (Nat.div_lt_iff_lt_mul hq0).mpr hp
    have hi1 : 1 ≤ p / (X.length / folds) + 1 :=
      Nat.succ_le_succ (Nat.zero_le _)
    have hi2 : p / (X.length / folds) + 1 ≤ folds := hdiv
    have hmodlt : p % (X.length / folds) < X.length / folds :=
      Nat.mod_lt _ hq0
    have hdm : p / (X.length / folds) * (X.length / folds)
        + p % (X.length / folds) = p := by
      rw [mul_comm]
      exact Nat.div_add_mod p (X.length / folds)
    refine ⟨p / (X.length / folds) + 1, ⟨hi1, hi2, ?_⟩, ?_⟩
    · rw [mem_testIdx _ _ _ _ (hbound _ hi1 hi2)]
      constructor
      · simpa using Nat.div_mul_le_self p (X.length / folds)
      · simp only [Nat.add_sub_cancel]
        calc p = p / (X.length / folds) * (X.length / folds)
              + p % (X.length / folds) := hdm.symm
          _ < p / (X.length / folds) * (X.length / folds)
              + X.length / folds := Nat.add_lt_add_left hmodlt _
    · rintro j ⟨hj1, hj2, hjm⟩
      rw [mem_testIdx _ _ _ _ (hbound _ hj1 hj2)] at hjm
      have hje : p / (X.length / folds) = j - 1 := by
        apply Nat.div_eq_of_lt_le
        · exact hjm.1
        · have : (j - 1 + 1) * (X.length / folds)
              = (j - 1) * (X.length / folds) + X.length / folds := by
            rw [Nat.succ_mul]
          rw [this]
          exact hjm.2
      omega
  · intro p hp1 hp2 i h1 h2i
    have hnot : p ∉ testIdx X.length (X.length / folds) i := by
      rw [mem_testIdx _ _ _ _ (hbound i h1 h2i)]
      rintro ⟨-, hlt⟩
      have e1 : (i - 1) * (X.length / folds)
          = i * (X.length / folds) - X.length / folds := Nat.sub_one_mul _ _
      have e2 : X.length / folds ≤ i * (X.length / folds) :=
        Nat.le_mul_of_pos_left _ (by omega)
      have e3 : i * (X.length / folds) ≤ folds * (X.length / folds) :=
        Nat.mul_le_mul_right _ h2i
      omega
    exact ⟨hnot, (mem_npDelete_range _ _ _).mpr ⟨hp2, hnot⟩⟩
  · simp only [cross_validation]
    rw [cvLoop_eq_sum]
  · intro Xs ys i h1 h2i
    simp only [foldAccuracy, npMean]
    congr 1
    rw [List.length_zipWith, hpred, List.length_map, List.length_map,
      hlen i h1 h2i, min_self]

theorem C4_cross_validation_witness :
    (∀ i, 1 ≤ i → i ≤ 2 → (testIdx 5 2 i).length = 2)
    ∧ (∀ p, p < 2 * 2 → ∃! i, 1 ≤ i ∧ i ≤ 2 ∧ p ∈ testIdx 5 2 i)
    ∧ (∀ p, 2 * 2 ≤ p → p < 5 → ∀ i, 1 ≤ i → i ≤ 2 →
        p ∉ testIdx 5 2 i ∧ p ∈ trainPositions 5 2 i)
    ∧ cross_validation cRng (fun _ _ => ())
        (fun (_ : Unit) Xt => Xt.map (fun _ => (0 : ℚ)))
        [[0], [0], [0], [0], [0]] [0, 0, 0, 0, 0] 2 0
        = (∑ i in Finset.Icc 1 2,
            foldAccuracy (fun _ _ => ())
              (fun (_ : Unit) Xt => Xt.map (fun _ => (0 : ℚ))) 5 2
              ((cRng.permutation (cRng.seed 0) 5).1.map
                (fun p => [[0], [0], [0], [0], [0]].getD p ([] : List ℚ)))
              ((cRng.permutation (cRng.seed 0) 5).1.map
                (fun p => ([0, 0, 0, 0, 0] : List ℚ).getD p 0)) i)
            / ((2 : ℕ) : ℚ)
    ∧ (∀ (Xs : List (List ℚ)) (ys : List ℚ) i, 1 ≤ i → i ≤ 2 →
        foldAccuracy (fun _ _ => ())
            (fun (_ : Unit) Xt => Xt.map (fun _ => (0 : ℚ))) 5 2 Xs ys i
          = (List.zipWith (fun a b => if a = b then (1 : ℚ) else 0)
              (((testIdx 5 2 i).map (fun p => Xs.getD p [])).map
                (fun _ => (0 : ℚ)))
              ((testIdx 5 2 i).map (fun p => ys.getD p 0))).sum
            / ((2 : ℕ) : ℚ)) :=
  C4_cross_validation cRng (fun _ _ => ())
    (fun (_ : Unit) Xt => Xt.map (fun _ => (0 : ℚ)))
    [[0], [0], [0], [0], [0]] [0, 0, 0, 0, 0] 2 0
    (by omega) (by simp) (by intro a Xt; simp)

/-- Insert an integer into a sorted, duplicate-free list (used to model
    `np.unique`, which returns the sorted distinct labels). -/
def insSorted (c : ℤ) : List ℤ → List ℤ
  | [] => [c]
  | x :: xs => if c < x then c :: x :: xs else if c = x then x :: xs
               else x :: insSorted c xs

/-- `np.unique(y)`: sorted distinct labels. -/
def uniqueSorted (y : List ℤ) : List ℤ := y.foldr insSorted []

/-- Python dict lookup with default (`d[c]`, total for the embedding). -/
def lookupD {β : Type} (d : List (ℤ × β)) (c : ℤ) (dflt : β) : β :=
  match d.find? (fun p => p.1 == c) with
  | some p => p.2
  | none => dflt

/-- Python dict assignment `d[c] = v`: updating an existing key keeps its
    position in the insertion order; a new key is appended at the end. -/
def dictUpdate {β : Type} (d : List (ℤ × β)) (c : ℤ) (v : β) : List (ℤ × β) :=
  if d.any (fun p => p.1 == c) then
    d.map (fun p => if p.1 == c then (c, v) else p)
  else d ++ [(c, v)]

/-- `X[y == c]`: the rows of `X` whose label is `c`. -/
def subRows (X : List (List ℚ)) (y : List ℤ) (c : ℤ) : List (List ℚ) :=
  ((X.zip y).filter (fun p => p.2 == c)).map Prod.fst

/-- The list of columns of a matrix (`sub_data[:, j]` for `j` in
    `range(sub_data.shape[1])`). -/
def colsOf (M : List (List ℚ)) : List (List ℚ) :=
  (List.range (ncols M)).map (fun j => colQ M j)

/-- The state of a `NaiveBayesGaussian` instance: hyperparameters and the
    dicts `prior` and `dist_params` (insertion-ordered, as Python dicts). -/
structure NBModel where
  k : ℕ
  random_state : ℤ
  prior : List (ℤ × ℚ)
  dist_params : List (ℤ × List GMMParams)

/-- `NaiveBayesGaussian.__init__`: stores `k` and `random_state` and makes
    the two empty dicts.  It does *not* touch the random generator. -/
def NB_new (k : ℕ) (rs : ℤ) : NBModel :=
  { k := k, random_state := rs, prior := [], dist_params := [] }

/-- The inner loop of `NaiveBayesGaussian.fit`: for each feature column of
    the class's rows, construct `EM(self.k, random_state=self.random_state)`
    (with the source defaults `n_iter=1000`, `eps=0.01`; construction seeds
    the generator), fit it on the column, and collect
    `em.get_dist_params()`. -/
def NB_fitCols (R : Rng) (O : RealOps) (k : ℕ) (rs : ℤ) :
    List (List ℚ) → R.State → List GMMParams × R.State
  | [], st => ([], st)
  | c :: cs, st =>
    ((get_dist_params (EM_fit R O (EM_new R k 1000 (1 / 100) rs st).1 c
        (EM_new R k 1000 (1 / 100) rs st).2).1)
      :: (NB_fitCols R O k rs cs
          (EM_fit R O (EM_new R k 1000 (1 / 100) rs st).1 c
            (EM_new R k 1000 (1 / 100) rs st).2).2).1,
     (NB_fitCols R O k rs cs
        (EM_fit R O (EM_new R k 1000 (1 / 100) rs st).1 c
          (EM_new R k 1000 (1 / 100) rs st).2).2).2)

/-- The outer loop of `NaiveBayesGaussian.fit`: for every distinct label
    (in `np.unique` order) set `prior[c]` to the class's relative row count
    and `dist_params[c]` to the per-feature mixture parameters. -/
def NB_fitClasses (R : Rng) (O : RealOps) (k : ℕ) (rs : ℤ)
    (X : List (List ℚ)) (y : List ℤ) :
    List ℤ → NBModel → R.State → NBModel × R.State
  | [], m, st => (m, st)
  | c :: cs, m, st =>
    NB_fitClasses R O k rs X y cs
      { m with
          prior := dictUpdate m.prior c
            ((subRows X y c).length / (X.length : ℚ))
          dist_params := dictUpdate m.dist_params c
            (NB_fitCols R O k rs (colsOf (subRows X y c)) st).1 }
      (NB_fitCols R O k rs (colsOf (subRows X y c)) st).2

/-- `NaiveBayesGaussian.fit(X, y)`. -/
def NB_fit (R : Rng) (O : RealOps) (m : NBModel) (X : List (List ℚ))
    (y : List ℤ) (st : R.State) : NBModel × R.State :=
  NB_fitClasses R O m.k m.random_state X y (uniqueSorted y) m st

/-- `gmm_pdf` applied to a stored parameter triple. -/
def gmmApply (O : RealOps) (p : GMMParams) (v : ℚ) : ℚ :=
  gmm_pdf O p.weights p.mus p.sigmas v

/-- One row of the posteriors matrix built by
    `NaiveBayesGaussian.predict`: for each class in `self.prior` insertion
    order, the product over the `nfeat` feature columns of the mixture
    density at this instance, times the class prior. -/
def NB_posteriorRow (O : RealOps) (m : NBModel) (nfeat : ℕ)
    (x : List ℚ) : List ℚ :=
  m.prior.map (fun pc =>
    (((List.range nfeat).map (fun j =>
        gmmApply O ((lookupD m.dist_params pc.1 []).getD j ⟨[], [], []⟩)
          (x.getD j 0))).prod) * pc.2)

/-- `np.argmax`: index of the first maximal entry. -/
def npArgmaxAux : List ℚ → ℕ → ℕ → ℚ → ℕ
  | [], _, bi, _ => bi
  | v :: vs, i, bi, bv =>
    if v > bv then npArgmaxAux vs (i + 1) i v else npArgmaxAux vs (i + 1) bi bv

def npArgmax : List ℚ → ℕ
  | [] => 0
  | v :: vs => npArgmaxAux vs 1 0 v

/-- `NaiveBayesGaussian.predict(X)`: per row, `np.argmax` over the
    posterior row — note this returns the *column index* into the prior
    table's insertion order, not the class label itself. -/
def NB_predict (O : RealOps) (m : NBModel) (X : List (List ℚ)) : List ℕ :=
  X.map (fun x => npArgmax (NB_posteriorRow O m (ncols X) x))

theorem fitLoop_one {σ : Type} (step : σ → σ × ℚ) (eps : ℚ) (s : σ)
    (js : List ℚ) :
    fitLoop step eps 1 0 s js = ((step s).1, js ++ [(step s).2], 1) := by
  rw [show (1 : ℕ) = 0 + 1 from rfl, fitLoop_succ,
    stopCheck_le_one 0 (by omega)]
  simp [fitLoop]

theorem NB_fitCols_fst_state_indep (R : Rng) (O : RealOps) (k : ℕ) (rs : ℤ) :
    ∀ (cols : List (List ℚ)) (st st2 : R.State),
      (NB_fitCols R O k rs cols st).1 = (NB_fitCols R O k rs cols st2).1
  | [], _, _ => rfl
  | _ :: _, _, _ => rfl

theorem NB_fitClasses_fst_state_indep (R : Rng) (O : RealOps) (k : ℕ)
    (rs : ℤ) (X : List (List ℚ)) (y : List ℤ) :
    ∀ (cs : List ℤ) (m : NBModel) (st st2 : R.State),
      (NB_fitClasses R O k rs X y cs m st).1
        = (NB_fitClasses R O k rs X y cs m st2).1
  | [], _, _, _ => rfl
  | c :: cs, m, st, st2 => by
    simp only [NB_fitClasses]
    rw [NB_fitCols_fst_state_indep R O k rs (colsOf (subRows X y c)) st st2]
    exact NB_fitClasses_fst_state_indep R O k rs X y cs _ _ _

/-- The learned `theta` of a `LogisticRegressionGD.fit` call does not
    depend on the histories the model carries in: it equals the final state
    of a fresh run. -/
theorem LRGD_theta_state (R : Rng) (O : RealOps) (m : LRGDModel)
    (X : List (List ℚ)) (y : List ℚ) (st : R.State) :
    (LRGD_fit R O m X y st).1.theta
      = (fitLoop (lrgdStep O m.eta (apply_bias_trick X) y) m.eps m.n_iter 0
          ((R.random (R.seed m.random_state) (ncols (apply_bias_trick X))).1,
            ([] : List (List ℚ))) []).1.1 := by
  have hh := fitLoop_lrgd_hist O m.eta m.eps (apply_bias_trick X) y m.n_iter 0
    ((R.random (R.seed m.random_state) (ncols (apply_bias_trick X))).1)
    m.thetas [] m.Js
  rw [List.append_nil] at hh
  obtain ⟨-, f2, -, -, -, -, -⟩ :=
    fitRun_spec (lrgdStep O m.eta (apply_bias_trick X) y) m.eps m.n_iter
      ((R.random (R.seed m.random_state) (ncols (apply_bias_trick X))).1,
        ([] : List (List ℚ))) m.Js
  simp only [LRGD_fit, LRGD_fitAux]
  rw [hh]
  dsimp only
  rw [f2]

/-- C6, counterexample: `EM` seeds only in `__init__`, never in `fit`, so
    two successive `fit` calls on the same instance with the same data draw
    different `init_params` means from the generator and can learn
    different parameters.  Here (`k = 2`, `n_iter = 1`, data `[0, 1, 2]`,
    the concrete generator `cRng` and primitives `affOps`) the first fit
    learns `mus = [121/133, 41/35]` and the second `[29/35, 145/133]`. -/
theorem C6_reproducibility_counterexample :
    (EM_fit cRng affOps
        (EM_fit cRng affOps (EM_new cRng 2 1 (1 / 2) 7 (cRng.seed 0)).1
          [0, 1, 2] (EM_new cRng 2 1 (1 / 2) 7 (cRng.seed 0)).2).1
        [0, 1, 2]
        (EM_fit cRng affOps (EM_new cRng 2 1 (1 / 2) 7 (cRng.seed 0)).1
          [0, 1, 2] (EM_new cRng 2 1 (1 / 2) 7 (cRng.seed 0)).2).2).1.mus
      ≠ (EM_fit cRng affOps (EM_new cRng 2 1 (1 / 2) 7 (cRng.seed 0)).1
          [0, 1, 2] (EM_new cRng 2 1 (1 / 2) 7 (cRng.seed 0)).2).1.mus := by
  have hc : cRng.choice (cRng.seed 7) 3 2
      = ([0, 1], show cRng.State from (1 : ℕ)) := rfl
  have hc2 : cRng.choice (show cRng.State from (1 : ℕ)) 3 2
      = ([1, 2], show cRng.State from (2 : ℕ)) := rfl
  have h1 : (EM_fit cRng affOps (EM_new cRng 2 1 (1 / 2) 7 (cRng.seed 0)).1
      [0, 1, 2] (EM_new cRng 2 1 (1 / 2) 7 (cRng.seed 0)).2).1.mus
      = [121 / 133, 41 / 35] := by
    simp only [EM_new, EM_fit, EM_fitAux, fitLoop_one]
    norm_num [init_params, emStep, expectation, maximization, npStd, npMean,
      norm_pdf, gmm_pdf, colQ, dotQ, hc, affOps, List.range_succ]
  have hst : (EM_fit cRng affOps (EM_new cRng 2 1 (1 / 2) 7 (cRng.seed 0)).1
      [0, 1, 2] (EM_new cRng 2 1 (1 / 2) 7 (cRng.seed 0)).2).2
      = show cRng.State from (1 : ℕ) := rfl
  have h2 : (EM_fit cRng affOps
      (EM_fit cRng affOps (EM_new cRng 2 1 (1 / 2) 7 (cRng.seed 0)).1
        [0, 1, 2] (EM_new cRng 2 1 (1 / 2) 7 (cRng.seed 0)).2).1
      [0, 1, 2]
      (EM_fit cRng affOps (EM_new cRng 2 1 (1 / 2) 7 (cRng.seed 0)).1
        [0, 1, 2] (EM_new cRng 2 1 (1 / 2) 7 (cRng.seed 0)).2).2).1.mus
      = [29 / 35, 145 / 133] := by
    rw [hst]
    simp only [EM_new, EM_fit, EM_fitAux, fitLoop_one]
    norm_num [init_params, emStep, expectation, maximization, npStd, npMean,
      norm_pdf, gmm_pdf, colQ, dotQ, hc, hc2, affOps, List.range_succ]
  rw [h1, h2]
  norm_num

/-- C6, amended: `LogisticRegressionGD.fit` seeds the generator at the
    start of every call, so its result — in particular the learned
    `theta` — is independent of the incoming generator state, and a second
    fit on the same instance relearns the identical `theta`;
    `NaiveBayesGaussian.fit` seeds at each internal `EM` construction, so
    its fitted model is likewise independent of the incoming state; `EM`
    seeds only at construction, so (only) the first fit after construction
    is determined by the seed. -/
theorem C6_seeding_amended (R : Rng) (O : RealOps) :
    (∀ (m : LRGDModel) (X : List (List ℚ)) (y : List ℚ) (st st2 : R.State),
      (LRGD_fit R O m X y st).1 = (LRGD_fit R O m X y st2).1)
    ∧ (∀ (m : LRGDModel) (X : List (List ℚ)) (y : List ℚ) (st : R.State),
      (LRGD_fit R O (LRGD_fit R O m X y st).1 X y
          (LRGD_fit R O m X y st).2).1.theta
        = (LRGD_fit R O m X y st).1.theta)
    ∧ (∀ (m : NBModel) (X : List (List ℚ)) (y : List ℤ) (st st2 : R.State),
      (NB_fit R O m X y st).1 = (NB_fit R O m X y st2).1)
    ∧ (∀ (k n_iter : ℕ) (eps : ℚ) (rs : ℤ) (data : List ℚ)
        (st st2 : R.State),
      (EM_fit R O (EM_new R k n_iter eps rs st).1 data
          (EM_new R k n_iter eps rs st).2).1
        = (EM_fit R O (EM_new R k n_iter eps rs st2).1 data
            (EM_new R k n_iter eps rs st2).2).1) := by
  refine ⟨fun m X y st st2 => rfl, ?_, ?_, fun k n e rs d st st2 => rfl⟩
  · intro m X y st
    rw [LRGD_theta_state, LRGD_theta_state]
    rfl
  · intro m X y st st2
    exact NB_fitClasses_fst_state_indep R O m.k m.random_state X y
      (uniqueSorted y) m st st2

theorem sum_map_zero {γ : Type} (l : List γ) :
    (l.map (fun _ => (0 : ℚ))).sum = 0 := by
  induction l with
  | nil => simp
  | cons a t ih => simp [ih]

theorem sum_map_one' {γ : Type} (l : List γ) :
    (l.map (fun _ => (1 : ℚ))).sum = (l.length : ℚ) := by
  induction l with
  | nil => simp
  | cons a t ih =>
    simp only [List.map_cons, List.sum_cons, ih, List.length_cons]
    push_cast
    ring

theorem dotQ_ones_left (l : List ℚ) (f : ℚ → ℚ) :
    dotQ (l.map (fun _ => 1)) (l.map f) = (l.map f).sum := by
  induction l with
  | nil => simp [dotQ]
  | cons a t ih =>
    simp only [dotQ, List.map_cons, List.zipWith_cons_cons, List.sum_cons] at ih ⊢
    rw [ih]
    ring_nf

theorem dotQ_ones_left_self (l : List ℚ) :
    dotQ (l.map (fun _ => 1)) l = l.sum := by
  induction l with
  | nil => simp [dotQ]
  | cons a t ih =>
    simp only [dotQ, List.map_cons, List.zipWith_cons_cons, List.sum_cons] at ih ⊢
    rw [ih]
    ring_nf

theorem norm_pdf_oneOps (x mu sigma : ℚ) :
    norm_pdf oneOps x mu sigma = 1 / sigma := by
  norm_num [norm_pdf, oneOps]

theorem expectation_k1_oneOps (data : List ℚ) (p : GMMParams)
    (hw : p.weights.getD 0 0 ≠ 0) (hs : p.sigmas.getD 0 0 ≠ 0) :
    expectation oneOps 1 data p = data.map (fun _ => [1]) := by
  apply List.map_congr_left
  intro x _
  have hne : p.weights.getD 0 0 * norm_pdf oneOps x (p.mus.getD 0 0)
      (p.sigmas.getD 0 0) ≠ 0 := by
    rw [norm_pdf_oneOps]
    exact mul_ne_zero hw (one_div_ne_zero hs)
  simp only [List.range_succ, List.range_zero, List.nil_append, List.map_cons,
    List.map_nil, List.sum_cons, List.sum_nil, add_zero]
  rw [div_self hne]

theorem maximization_k1_oneOps (data : List ℚ) (hdata : data ≠ []) :
    maximization oneOps 1 data (data.map (fun _ => [1]))
      = ⟨[1], [npMean data], [npStd oneOps data]⟩ := by
  have hcol : colQ (data.map (fun _ => ([1] : List ℚ))) 0
      = data.map (fun _ => (1 : ℚ)) := by
    simp [colQ, List.map_map]
  have hm : ((data.length : ℕ) : ℚ) ≠ 0 := by
    exact_mod_cast fun h => hdata (List.length_eq_zero.mp h)
  simp only [maximization, List.range_succ, List.range_zero, List.nil_append,
    List.map_cons, List.map_nil, hcol, List.zipWith_cons_cons,
    List.zipWith_nil_right, sum_map_one', List.length_map, dotQ_ones_left,
    dotQ_ones_left_self]
  rw [div_self hm]
  simp only [mul_one, one_div_mul_eq_div, List.getD_cons_zero, npMean, npStd]

theorem emStep_k1_oneOps (data : List ℚ) (p : GMMParams)
    (r : List (List ℚ)) (hdata : data ≠ [])
    (hw : p.weights.getD 0 0 ≠ 0) (hs : p.sigmas.getD 0 0 ≠ 0) :
    emStep oneOps 1 data (p, r)
      = ((⟨[1], [npMean data], [npStd oneOps data]⟩,
          data.map (fun _ => [1])), 0) := by
  simp only [emStep, expectation_k1_oneOps data p hw hs,
    maximization_k1_oneOps data hdata]
  have hlog : data.map (fun x => oneOps.log2 (gmm_pdf oneOps [1]
      [npMean data] [npStd oneOps data] x)) = data.map (fun _ => (0 : ℚ)) := by
    apply List.map_congr_left
    intro x _
    rfl
  rw [hlog, sum_map_zero]
  norm_num

theorem EM_fit_k1_oneOps (R : Rng) (rs : ℤ) (st : R.State) (data : List ℚ)
    (hdata : data ≠ []) (hstd : npStd oneOps data ≠ 0) :
    EM_fit R oneOps (EM_new R 1 1000 (1 / 100) rs st).1 data
        (EM_new R 1 1000 (1 / 100) rs st).2
      = ({ k := 1, n_iter := 1000, eps := 1 / 100, random_state := rs
           responsibilities := data.map (fun _ => [1])
           weights := [1]
           mus := [npMean data]
           sigmas := [npStd oneOps data]
           costs := [0, 0, 0] },
         (R.choice (R.seed rs) data.length 1).2) := by
  have hip : (init_params R oneOps 1 data (R.seed rs)).1.weights.getD 0 0 ≠ 0 := by
    simp [init_params]
  have hip2 : (init_params R oneOps 1 data (R.seed rs)).1.sigmas.getD 0 0 ≠ 0 := by
    simpa [init_params] using hstd
  have h0 := emStep_k1_oneOps data (init_params R oneOps 1 data (R.seed rs)).1
    [] hdata hip hip2
  have h1 := emStep_k1_oneOps data ⟨[1], [npMean data], [npStd oneOps data]⟩
    (data.map (fun _ => [1])) hdata (by norm_num) (by simpa using hstd)
  have hbreak := fitLoop_const_break (emStep oneOps 1 data) (1 / 100)
    ((init_params R oneOps 1 data (R.seed rs)).1, ([] : List (List ℚ)))
    (⟨[1], [npMean data], [npStd oneOps data]⟩, data.map (fun _ => [1]))
    0 h0 h1 (by norm_num) 997 []
  simp only [EM_fit, EM_fitAux, EM_new]
  rw [show (1000 : ℕ) = 997 + 3 from rfl, hbreak]
  simp only [List.nil_append, init_params]

theorem NB_fit_c1_eval (st : cRng.State) :
    (NB_fit cRng oneOps (NB_new 1 0) [[0], [1], [2], [3]] [2, 2, 3, 3] st).1
      = { k := 1, random_state := 0
          prior := [(2, 1 / 2), (3, 1 / 2)]
          dist_params := [(2, [⟨[1], [1 / 2], [1 / 4]⟩]),
                          (3, [⟨[1], [5 / 2], [1 / 4]⟩])] } := by
  have h2 : ∀ st2 : cRng.State,
      EM_fit cRng oneOps (EM_new cRng 1 1000 (1 / 100) 0 st2).1 [0, 1]
          (EM_new cRng 1 1000 (1 / 100) 0 st2).2
        = ({ k := 1, n_iter := 1000, eps := 1 / 100, random_state := 0
             responsibilities := [[1], [1]], weights := [1], mus := [1 / 2]
             sigmas := [1 / 4], costs := [0, 0, 0] },
           (cRng.choice (cRng.seed 0) 2 1).2) := by
    intro st2
    have h := EM_fit_k1_oneOps cRng 0 st2 [0, 1] (by simp)
      (by norm_num [npStd, npMean, oneOps])
    rw [h]
    norm_num [npStd, npMean, oneOps]
  have h3 : ∀ st2 : cRng.State,
      EM_fit cRng oneOps (EM_new cRng 1 1000 (1 / 100) 0 st2).1 [2, 3]
          (EM_new cRng 1 1000 (1 / 100) 0 st2).2
        = ({ k := 1, n_iter := 1000, eps := 1 / 100, random_state := 0
             responsibilities := [[1], [1]], weights := [1], mus := [5 / 2]
             sigmas := [1 / 4], costs := [0, 0, 0] },
           (cRng.choice (cRng.seed 0) 2 1).2) := by
    intro st2
    have h := EM_fit_k1_oneOps cRng 0 st2 [2, 3] (by simp)
      (by norm_num [npStd, npMean, oneOps])
    rw [h]
    norm_num [npStd, npMean, oneOps]
  have hu : uniqueSorted [2, 2, 3, 3] = [2, 3] := rfl
  have hs2 : colsOf (subRows [[0], [1], [2], [3]] [2, 2, 3, 3] 2)
      = [[0, 1]] := rfl
  have hs3 : colsOf (subRows [[0], [1], [2], [3]] [2, 2, 3, 3] 3)
      = [[2, 3]] := rfl
  simp only [NB_fit, NB_new, hu, NB_fitClasses, hs2, hs3, NB_fitCols,
    get_dist_params]
  norm_num [subRows, colsOf, ncols, colQ, dictUpdate, h2, h3]

/-- C1: code bug - `NaiveBayesGaussian.predict` returns `np.argmax` column
    indices into the prior table, not class labels.  Fitted on labels
    `{2, 3}`, `predict` returns `0`, which is not an element of the label
    set seen during fit. -/
theorem C1_predict_returns_index_not_label :
    NB_predict oneOps
        (NB_fit cRng oneOps (NB_new 1 0) [[0], [1], [2], [3]] [2, 2, 3, 3]
          (cRng.seed 0)).1 [[5]] = [0]
    ∧ (NB_fit cRng oneOps (NB_new 1 0) [[0], [1], [2], [3]] [2, 2, 3, 3]
        (cRng.seed 0)).1.prior.map Prod.fst = [2, 3]
    ∧ (0 : ℤ) ∉ uniqueSorted [2, 2, 3, 3] := by
  rw [NB_fit_c1_eval]
  refine ⟨?_, rfl, by decide⟩
  have hl2 : lookupD [(2, [⟨[1], [1 / 2], [1 / 4]⟩]),
      (3, [⟨[1], [5 / 2], [1 / 4]⟩])] 2 ([] : List GMMParams)
      = [⟨[1], [1 / 2], [1 / 4]⟩] := rfl
  have hl3 : lookupD [(2, [⟨[1], [1 / 2], [1 / 4]⟩]),
      (3, [⟨[1], [5 / 2], [1 / 4]⟩])] 3 ([] : List GMMParams)
      = [⟨[1], [5 / 2], [1 / 4]⟩] := rfl
  have hr1 : List.range 1 = [0] := rfl
  norm_num [NB_predict, NB_posteriorRow, ncols, hl2, hl3, npArgmax,
    npArgmaxAux, gmmApply, gmm_pdf, norm_pdf, oneOps, hr1]

theorem find?_map_update_ne {β : Type} (c' c : ℤ) (v : β) (h : c' ≠ c) :
    ∀ d : List (ℤ × β),
      (d.map (fun q => if q.1 == c' then (c', v) else q)).find?
          (fun q => q.1 == c)
        = d.find? (fun q => q.1 == c)
  | [] => rfl
  | p :: d => by
    by_cases hp : p.1 = c'
    · have hh : (if p.1 == c' then (c', v) else p) = (c', v) := by simp [hp]
      rw [List.map_cons, hh,
        List.find?_cons_of_neg _ (by simp [h]),
        List.find?_cons_of_neg _ (by simp [hp, h])]
      exact find?_map_update_ne c' c v h d
    · have hh : (if p.1 == c' then (c', v) else p) = p := by simp [hp]
      rw [List.map_cons, hh]
      by_cases hpc : p.1 = c
      · rw [List.find?_cons_of_pos _ (by simp [hpc]),
          List.find?_cons_of_pos _ (by simp [hpc])]
      · rw [List.find?_cons_of_neg _ (by simp [hpc]),
          List.find?_cons_of_neg _ (by simp [hpc])]
        exact find?_map_update_ne c' c v h d

theorem find?_dictUpdate_ne {β : Type} (d : List (ℤ × β)) (c' c : ℤ)
    (v : β) (h : c' ≠ c) :
    (dictUpdate d c' v).find? (fun p => p.1 == c)
      = d.find? (fun p => p.1 == c) := by
  unfold dictUpdate
  by_cases ha : d.any (fun p => p.1 == c')
  · rw [if_pos ha]
    exact find?_map_update_ne c' c v h d
  · rw [if_neg ha, List.find?_append]
    have h2 : (c' == c) = false := by simp [h]
    cases hf : d.find? (fun p => p.1 == c) with
    | some p => rfl
    | none => simp [List.find?, h2]

theorem NB_fitClasses_find?_preserved (R : Rng) (O : RealOps) (k : ℕ)
    (rs : ℤ) (X : List (List ℚ)) (y : List ℤ) :
    ∀ (cs : List ℤ) (m : NBModel) (st : R.State) (c : ℤ), c ∉ cs →
      ((NB_fitClasses R O k rs X y cs m st).1.prior.find?
          (fun p => p.1 == c) = m.prior.find? (fun p => p.1 == c))
      ∧ ((NB_fitClasses R O k rs X y cs m st).1.dist_params.find?
          (fun p => p.1 == c) = m.dist_params.find? (fun p => p.1 == c))
  | [], m, st, c, _ => ⟨rfl, rfl⟩
  | c' :: cs, m, st, c, hc => by
    have hne : c' ≠ c := fun he => hc (he ▸ List.mem_cons_self c' cs)
    have hcs : c ∉ cs := fun hm => hc (List.mem_cons_of_mem c' hm)
    have ih := NB_fitClasses_find?_preserved R O k rs X y cs
      { m with
          prior := dictUpdate m.prior c'
            ((subRows X y c').length / (X.length : ℚ))
          dist_params := dictUpdate m.dist_params c'
            (NB_fitCols R O k rs (colsOf (subRows X y c')) st).1 }
      (NB_fitCols R O k rs (colsOf (subRows X y c')) st).2 c hcs
    refine ⟨?_, ?_⟩
    · rw [NB_fitClasses, ih.1]
      exact find?_dictUpdate_ne m.prior c' c _ hne
    · rw [NB_fitClasses, ih.2]
      exact find?_dictUpdate_ne m.dist_params c' c _ hne

theorem npArgmaxAux_no_update : ∀ (vs : List ℚ) (i0 bi : ℕ) (bv : ℚ),
    (∀ j, j < vs.length → vs.getD j 0 ≤ bv) → npArgmaxAux vs i0 bi bv = bi
  | [], _, _, _, _ => rfl
  | v :: vs, i0, bi, bv, h => by
    have h0 : v ≤ bv := by
      have := h 0 (by simp)
      simpa using this
    rw [npArgmaxAux, if_neg (not_lt.mpr h0)]
    exact npArgmaxAux_no_update vs (i0 + 1) bi bv (fun j hj => by
      have := h (j + 1) (by simpa using hj)
      simpa using this)

theorem npArgmaxAux_dominant : ∀ (vs : List ℚ) (i0 bi : ℕ) (bv : ℚ) (p : ℕ),
    p < vs.length → bv < vs.getD p 0 →
    (∀ j, j < vs.length → j ≠ p → vs.getD j 0 < vs.getD p 0) →
    npArgmaxAux vs i0 bi bv = i0 + p
  | [], _, _, _, p, hp, _, _ => absurd hp (by simp)
  | v :: vs, i0, bi, bv, 0, hp, hbv, hdom => by
    have hv : bv < v := by simpa using hbv
    rw [npArgmaxAux, if_pos hv]
    rw [npArgmaxAux_no_update vs (i0 + 1) i0 v (fun j hj => by
      have := hdom (j + 1) (by simpa using hj) (by omega)
      simp only [List.getD_cons_succ, List.getD_cons_zero] at this
      exact le_of_lt this)]
    omega
  | v :: vs, i0, bi, bv, p + 1, hp, hbv, hdom => by
    have hvp : v < vs.getD p 0 := by
      have := hdom 0 (by omega) (by omega)
      simpa using this
    have hp' : p < vs.length := by simpa using hp
    have hbv' : bv < vs.getD p 0 := by simpa using hbv
    have hdom' : ∀ j, j < vs.length → j ≠ p → vs.getD j 0 < vs.getD p 0 :=
      fun j hj hjp => by
        have := hdom (j + 1) (by simpa using hj) (by omega)
        simpa using this
    rw [npArgmaxAux]
    by_cases hv : v > bv
    · rw [if_pos hv, npArgmaxAux_dominant vs (i0 + 1) i0 v p hp' hvp hdom']
      omega
    · rw [if_neg hv, npArgmaxAux_dominant vs (i0 + 1) bi bv p hp' hbv' hdom']
      omega

theorem npArgmax_dominant (l : List ℚ) (i : ℕ) (hi : i < l.length)
    (hdom : ∀ j, j < l.length → j ≠ i → l.getD j 0 < l.getD i 0) :
    npArgmax l = i := by
  match l, hi, hdom with
  | v :: vs, hi', hdom =>
    rw [npArgmax]
    match i, hi' with
    | 0, _ =>
      exact npArgmaxAux_no_update vs 1 0 v (fun j hj => by
        have := hdom (j + 1) (by simpa using hj) (by omega)
        simp only [List.getD_cons_succ, List.getD_cons_zero] at this
        exact le_of_lt this)
    | p + 1, hi' =>
      have hp : p < vs.length := by
        simp only [List.length_cons] at hi'
        omega
      have hv : v < vs.getD p 0 := by
        have := hdom 0 (by simp) (by omega)
        simpa using this
      have hdom' : ∀ j, j < vs.length → j ≠ p → vs.getD j 0 < vs.getD p 0 :=
        fun j hj hjp => by
          have := hdom (j + 1) (by simp only [List.length_cons]; omega)
            (by omega)
          simpa using this
      rw [npArgmaxAux_dominant vs 1 0 v p hp hv hdom']
      omega

theorem NB_fit_c9_eval (st : cRng.State) :
    (NB_fit cRng oneOps
        { k := 1, random_state := 0
          prior := [(0, 1 / 2), (1, 1 / 2)]
          dist_params := [(0, [⟨[1], [0], [1]⟩]),
                          (1, [⟨[1], [10], [1 / 8]⟩])] }
        [[0], [2]] [0, 0] st).1
      = { k := 1, random_state := 0
          prior := [(0, 1), (1, 1 / 2)]
          dist_params := [(0, [⟨[1], [1], [1]⟩]),
                          (1, [⟨[1], [10], [1 / 8]⟩])] } := by
  have h2 : ∀ st2 : cRng.State,
      EM_fit cRng oneOps (EM_new cRng 1 1000 (1 / 100) 0 st2).1 [0, 2]
          (EM_new cRng 1 1000 (1 / 100) 0 st2).2
        = ({ k := 1, n_iter := 1000, eps := 1 / 100, random_state := 0
             responsibilities := [[1], [1]], weights := [1], mus := [1]
             sigmas := [1], costs := [0, 0, 0] },
           (cRng.choice (cRng.seed 0) 2 1).2) := by
    intro st2
    have h := EM_fit_k1_oneOps cRng 0 st2 [0, 2] (by simp)
      (by norm_num [npStd, npMean, oneOps])
    rw [h]
    norm_num [npStd, npMean, oneOps]
  have hu : uniqueSorted [0, 0] = [0] := rfl
  have hs : colsOf (subRows [[0], [2]] [0, 0] 0) = [[0, 2]] := rfl
  simp only [NB_fit, hu, NB_fitClasses, hs, NB_fitCols, get_dist_params]
  norm_num [subRows, colsOf, ncols, colQ, dictUpdate, h2]

/-- C9: a class absent from the second fit's labels keeps its `prior` and
    `dist_params` entries (the dicts are never cleared), `predict` still
    computes a posterior column for it from those stale entries, and when
    that column dominates, `predict` returns the stale class's position;
    the final conjunct is a concrete run where a refit on labels `{0}`
    leaves class `1` in place and `predict` then selects it. -/
theorem C9_stale_class_survives_refit (R : Rng) (O : RealOps) (m : NBModel)
    (X2 : List (List ℚ)) (y2 : List ℤ) (st : R.State) (c : ℤ)
    (hc : c ∉ uniqueSorted y2) :
    ((NB_fit R O m X2 y2 st).1.prior.find? (fun p => p.1 == c)
        = m.prior.find? (fun p => p.1 == c)
      ∧ (NB_fit R O m X2 y2 st).1.dist_params.find? (fun p => p.1 == c)
        = m.dist_params.find? (fun p => p.1 == c))
    ∧ (∀ (m2 : NBModel) (nfeat : ℕ) (x : List ℚ) (i : ℕ) (pc : ℚ),
        i < m2.prior.length → m2.prior.getD i (0, 0) = (c, pc) →
        (NB_posteriorRow O m2 nfeat x).getD i 0
          = ((List.range nfeat).map (fun j =>
              gmmApply O ((lookupD m2.dist_params c []).getD j ⟨[], [], []⟩)
                (x.getD j 0))).prod * pc)
    ∧ (∀ (m2 : NBModel) (x : List ℚ) (i : ℕ),
        i < m2.prior.length →
        (∀ j, j < m2.prior.length → j ≠ i →
          (NB_posteriorRow O m2 (ncols [x]) x).getD j 0
            < (NB_posteriorRow O m2 (ncols [x]) x).getD i 0) →
        NB_predict O m2 [x] = [i])
    ∧ NB_predict oneOps (NB_fit cRng oneOps
          { k := 1, random_state := 0
            prior := [(0, 1 / 2), (1, 1 / 2)]
            dist_params := [(0, [⟨[1], [0], [1]⟩]),
                            (1, [⟨[1], [10], [1 / 8]⟩])] }
          [[0], [2]] [0, 0] (cRng.seed 0)).1 [[10]] = [1] := by
  have h1 := NB_fitClasses_find?_preserved R O m.k m.random_state X2 y2
    (uniqueSorted y2) m st c hc
  refine ⟨⟨h1.1, h1.2⟩, ?_, ?_, ?_⟩
  · intro m2 nfeat x i pc hi hget
    rw [NB_posteriorRow,
      List.getD_eq_getElem _ _ (by simpa using hi), List.getElem_map]
    have he : m2.prior[i] = (c, pc) := by
      rw [← List.getD_eq_getElem m2.prior (0, 0) hi]
      exact hget
    rw [he]
  · intro m2 x i hi hdom
    have hlen : (NB_posteriorRow O m2 (ncols [x]) x).length
        = m2.prior.length := by
      simp [NB_posteriorRow]
    simp only [NB_predict, List.map_cons, List.map_nil]
    exact congrArg (fun n => [n]) (npArgmax_dominant _ i
      (by rw [hlen]; exact hi)
      (fun j hj hji => hdom j (by rwa [hlen] at hj) hji))
  · rw [NB_fit_c9_eval]
    have hl0 : lookupD [(0, [⟨[1], [1], [1]⟩]), (1, [⟨[1], [10], [1 / 8]⟩])]
        0 ([] : List GMMParams) = [⟨[1], [1], [1]⟩] := rfl
    have hl1 : lookupD [(0, [⟨[1], [1], [1]⟩]), (1, [⟨[1], [10], [1 / 8]⟩])]
        1 ([] : List GMMParams) = [⟨[1], [10], [1 / 8]⟩] := rfl
    have hr1 : List.range 1 = [0] := rfl
    norm_num [NB_predict, NB_posteriorRow, ncols, hl0, hl1, npArgmax,
      npArgmaxAux, gmmApply, gmm_pdf, norm_pdf, oneOps, hr1]

theorem C9_stale_class_survives_refit_witness :
    (1 : ℤ) ∉ uniqueSorted [0, 0]
    ∧ (((NB_fit cRng oneOps
          { k := 1, random_state := 0
            prior := [(0, 1 / 2), (1, 1 / 2)]
            dist_params := [(0, [⟨[1], [0], [1]⟩]),
                            (1, [⟨[1], [10], [1 / 8]⟩])] }
          [[0], [2]] [0, 0] (cRng.seed 0)).1.prior.find? (fun p => p.1 == 1)
          = ({ k := 1, random_state := 0
               prior := [(0, 1 / 2), (1, 1 / 2)]
               dist_params := [(0, [⟨[1], [0], [1]⟩]),
                               (1, [⟨[1], [10], [1 / 8]⟩])] } : NBModel).prior.find?
              (fun p => p.1 == 1)
        ∧ (NB_fit cRng oneOps
          { k := 1, random_state := 0
            prior := [(0, 1 / 2), (1, 1 / 2)]
            dist_params := [(0, [⟨[1], [0], [1]⟩]),
                            (1, [⟨[1], [10], [1 / 8]⟩])] }
          [[0], [2]] [0, 0] (cRng.seed 0)).1.dist_params.find?
            (fun p => p.1 == 1)
          = ({ k := 1, random_state := 0
               prior := [(0, 1 / 2), (1, 1 / 2)]
               dist_params := [(0, [⟨[1], [0], [1]⟩]),
                               (1, [⟨[1], [10], [1 / 8]⟩])] } : NBModel).dist_params.find?
              (fun p => p.1 == 1))
      ∧ (∀ (m2 : NBModel) (nfeat : ℕ) (x : List ℚ) (i : ℕ) (pc : ℚ),
          i < m2.prior.length → m2.prior.getD i (0, 0) = (1, pc) →
          (NB_posteriorRow oneOps m2 nfeat x).getD i 0
            = ((List.range nfeat).map (fun j =>
                gmmApply oneOps ((lookupD m2.dist_params 1 []).getD j ⟨[], [], []⟩)
                  (x.getD j 0))).prod * pc)
      ∧ (∀ (m2 : NBModel) (x : List ℚ) (i : ℕ),
          i < m2.prior.length →
          (∀ j, j < m2.prior.length → j ≠ i →
            (NB_posteriorRow oneOps m2 (ncols [x]) x).getD j 0
              < (NB_posteriorRow oneOps m2 (ncols [x]) x).getD i 0) →
          NB_predict oneOps m2 [x] = [i])
      ∧ NB_predict oneOps (NB_fit cRng oneOps
            { k := 1, random_state := 0
              prior := [(0, 1 / 2), (1, 1 / 2)]
              dist_params := [(0, [⟨[1], [0], [1]⟩]),
                              (1, [⟨[1], [10], [1 / 8]⟩])] }
            [[0], [2]] [0, 0] (cRng.seed 0)).1 [[10]] = [1]) :=
  ⟨by decide,
   C9_stale_class_survives_refit cRng oneOps
     { k := 1, random_state := 0
       prior := [(0, 1 / 2), (1, 1 / 2)]
       dist_params := [(0, [⟨[1], [0], [1]⟩]),
                       (1, [⟨[1], [10], [1 / 8]⟩])] }
     [[0], [2]] [0, 0] (cRng.seed 0) 1 (by decide)⟩
